import Mathlib

/-!
Verification of the PR ingestion and batched LLM-summarization pipeline
(`src/backend/fetch_prs.py`, `src/backend/summarize_prs.py`,
`src/backend/api.py`, `src/backend/models.py`) against its specification.

The Python code is shallowly embedded: pure functions become Lean functions,
the LLM provider and the GitHub REST API become oracle parameters, Python
`dict` objects (insertion-ordered) become association lists, exceptions
become `Except`, and the `time.sleep` calls of the retry loop are recorded
as an explicit list of delays.
-/

set_option autoImplicit false

namespace SelfReview

/-! ## Data model (`src/backend/models.py`, Pydantic models in `summarize_prs.py`) -/

/-- `PullRequest` from `src/backend/models.py`. -/
structure PullRequest where
  title : String
  description : String
  url : String
  merged_at : String
  labels : List String
  source_repo : String
  deriving DecidableEq, Repr

/-- `PRCitation` from `src/backend/summarize_prs.py`. -/
structure PRCitation where
  title : String
  url : String
  deriving DecidableEq, Repr

/-- `SummaryBullet` from `src/backend/summarize_prs.py`. -/
structure SummaryBullet where
  title : String
  work_done : String
  significance : String
  career_area : String
  pr_citations : List PRCitation
  deriving DecidableEq, Repr

/-- `SummaryResponse` from `src/backend/summarize_prs.py`. -/
structure SummaryResponse where
  bullets : List SummaryBullet
  deriving DecidableEq, Repr

/-! ## Insertion-ordered dictionaries

Python `dict`s preserve insertion order of keys; assigning to an existing key
keeps its position.  `defaultdict(list)` with `grouped[k].append(v)` is
`dictAppend`; plain `d[k] = v` is `dictSet`. -/

/-- `grouped[k].append(v)` on a `defaultdict(list)`. -/
def dictAppend {α : Type} : List (String × List α) → String → α → List (String × List α)
  | [], k, v => [(k, [v])]
  | (k', vs) :: rest, k, v =>
    if k' = k then (k', vs ++ [v]) :: rest else (k', vs) :: dictAppend rest k v

/-- `d[k] = v` on a `dict`. -/
def dictSet {β : Type} : List (String × β) → String → β → List (String × β)
  | [], k, v => [(k, v)]
  | (k', v') :: rest, k, v =>
    if k' = k then (k', v) :: rest else (k', v') :: dictSet rest k v

/-- `d.get(k)` on a `dict`. -/
def dictFind {β : Type} : List (String × β) → String → Option β
  | [], _ => none
  | (k', v) :: rest, k => if k' = k then some v else dictFind rest k

/-- `d.get(k, v₀)` on a `dict`. -/
def dictGetD {β : Type} (d : List (String × β)) (k : String) (v₀ : β) : β :=
  (dictFind d k).getD v₀

/-- `d.keys()` in insertion order. -/
def dictKeys {β : Type} (d : List (String × β)) : List String :=
  d.map (·.1)

/-! ## LLM summarization worker (`summarize_label` in `src/backend/summarize_prs.py`)

The call `client.chat.completions.create(...)` followed by extraction of
`content`, the empty-content check, and `SummaryResponse.model_validate_json`
is modelled by an oracle indexed by the attempt number: it yields either an
exception message or a successfully parsed `SummaryResponse`.  Everything
after the parse (citation validation, retry loop, backoff, terminal error)
is translated from the source. -/

abbrev LLMOracle := Nat → Except String SummaryResponse

/-- The first cited URL that is not in the batch's own PR URL set, scanning
bullets and citations in order, as the nested `for` loops of
`summarize_label` do before raising `ValueError`. -/
def firstInvalidCitation (pr_urls : List String) (s : SummaryResponse) : Option String :=
  s.bullets.findSome? (fun b => b.pr_citations.findSome? (fun c =>
    if pr_urls.contains c.url then none else some c.url))

/-- One attempt of the `try` block of `summarize_label` (after the parse
oracle): a parsed response with a citation to an unknown URL raises
`ValueError(f"Cited URL {url} is not in the provided PRs")`. -/
def attemptOutcome (oracle : LLMOracle) (pr_urls : List String) (attempt : Nat) :
    Except String SummaryResponse :=
  match oracle attempt with
  | Except.error e => Except.error e
  | Except.ok s =>
    match firstInvalidCitation pr_urls s with
    | some u => Except.error ("Cited URL " ++ u ++ " is not in the provided PRs")
    | none => Except.ok s

/-- The terminal `ValueError(f"Failed to summarize {label} after {max_retries}
attempts: {last_error}")`; Python formats an absent last error as `None`. -/
def failMessage (label : String) (max_retries : Nat) (last_error : Option String) : String :=
  "Failed to summarize " ++ label ++ " after " ++ toString max_retries ++ " attempts: " ++
    (match last_error with
     | none => "None"
     | some e => e)

/-- The `for attempt in range(max_retries)` loop of `summarize_label`, with
`remaining = max_retries - attempt` iterations left (so the loop guard
`attempt < max_retries` is `remaining ≥ 1` and the sleep guard
`attempt < max_retries - 1` is `remaining ≥ 2`).  Returns the outcome
together with the list of `time.sleep` delays performed, in order; the delay
before retrying attempt `attempt + 1` is `2 ** attempt`. -/
def summarizeLabelGo (oracle : LLMOracle) (pr_urls : List String) (label : String)
    (max_retries : Nat) : Nat → Nat → Option String → Except String SummaryResponse × List Nat
  | _, 0, last_error => (Except.error (failMessage label max_retries last_error), [])
  | attempt, remaining + 1, _ =>
    match attemptOutcome oracle pr_urls attempt with
    | Except.ok s => (Except.ok s, [])
    | Except.error e =>
      match remaining with
      | 0 => (Except.error (failMessage label max_retries (some e)), [])
      | r + 1 =>
        let rest := summarizeLabelGo oracle pr_urls label max_retries (attempt + 1) (r + 1) (some e)
        (rest.1, 2 ^ attempt :: rest.2)

/-- `summarize_label(client, label, prs, year, job_requirements, max_retries)`.
`pr_urls = [pr.url for pr in prs]`; the prompt only feeds the oracle and has
no further observable effect. -/
def summarize_label (oracle : LLMOracle) (label : String) (prs : List PullRequest)
    (max_retries : Nat := 3) : Except String SummaryResponse × List Nat :=
  summarizeLabelGo oracle (prs.map (·.url)) label max_retries 0 max_retries none

/-! ## Pull-request fetcher (`fetch_merged_prs` in `src/backend/fetch_prs.py`)

`requests.get(...).json()` is modelled by an oracle from the page number to
the list of raw items of that page.  `datetime.fromisoformat` followed by
`.replace(tzinfo=None)` is modelled by a `parse` parameter producing a naive
datetime; Python compares naive datetimes field-lexicographically. -/

/-- A timezone-naive `datetime`. -/
structure NaiveDateTime where
  year : Nat
  month : Nat
  day : Nat
  hour : Nat
  minute : Nat
  second : Nat
  deriving DecidableEq, Repr

/-- Strict comparison of naive datetimes, field by field as Python compares
`datetime` objects. -/
def NaiveDateTime.ltb (a b : NaiveDateTime) : Bool :=
  if a.year ≠ b.year then decide (a.year < b.year)
  else if a.month ≠ b.month then decide (a.month < b.month)
  else if a.day ≠ b.day then decide (a.day < b.day)
  else if a.hour ≠ b.hour then decide (a.hour < b.hour)
  else if a.minute ≠ b.minute then decide (a.minute < b.minute)
  else decide (a.second < b.second)

/-- Non-strict comparison: `a <= b` is `not (b < a)` for Python datetimes. -/
def NaiveDateTime.leb (a b : NaiveDateTime) : Bool :=
  ! NaiveDateTime.ltb b a

/-- `start_date = datetime(year, 1, 1)`. -/
def startDate (year : Nat) : NaiveDateTime :=
  ⟨year, 1, 1, 0, 0, 0⟩

/-- `end_date = datetime(year, 12, 31, 23, 59, 59)`. -/
def endDate (year : Nat) : NaiveDateTime :=
  ⟨year, 12, 31, 23, 59, 59⟩

/-- One raw item of the GitHub closed-pulls listing, with the fields
`fetch_merged_prs` reads.  `login` is `none` when the `user` object is absent
or empty (falsy, so the item is skipped), and `some l` when a user object is
present with login `l` (`author.get("login", "")` defaults to `""`). -/
structure RawPR where
  merged_at : Option String
  login : Option String
  title : String
  body : Option String
  html_url : String
  labels : List String
  deriving DecidableEq, Repr

/-- Python's `str.lower()` on the ASCII range, applied code point by code
point (`author.get("login", "").lower() != username.lower()`). -/
def strLower (s : String) : String :=
  String.mk (s.data.map Char.toLower)

/-- How the per-item filter of `fetch_merged_prs` classifies a raw item. -/
inductive ItemClass where
  | notMerged
  | wrongAuthor
  | tooOld
  | tooNew
  | matched
  deriving DecidableEq, Repr

/-- The body of the `for pr in prs` loop of `fetch_merged_prs`: skip if
`merged_at` is falsy (absent or empty), skip if the author login does not
case-insensitively equal `username`, then compare the parsed naive merge date
against the year bounds. -/
def classifyItem (parse : String → NaiveDateTime) (username : String) (year : Nat)
    (pr : RawPR) : ItemClass :=
  match pr.merged_at with
  | none => ItemClass.notMerged
  | some ts =>
    if ts = "" then ItemClass.notMerged
    else
      match pr.login with
      | none => ItemClass.wrongAuthor
      | some l =>
        if strLower l ≠ strLower username then ItemClass.wrongAuthor
        else
          let d := parse ts
          if d.ltb (startDate year) then ItemClass.tooOld
          else if (endDate year).ltb d then ItemClass.tooNew
          else ItemClass.matched

/-- The `PullRequest(...)` record built for a matching item:
`title`, `body or ""`, `html_url`, the raw `merged_at` string, the label
names, and the originating repo. -/
def mkPullRequest (repo : String) (pr : RawPR) : PullRequest :=
  { title := pr.title
    description := pr.body.getD ""
    url := pr.html_url
    merged_at := pr.merged_at.getD ""
    labels := pr.labels
    source_repo := repo }

/-- The `PullRequest`s a single page contributes to `all_prs`, in order. -/
def pagePrs (parse : String → NaiveDateTime) (username : String) (year : Nat)
    (repo : String) (items : List RawPR) : List PullRequest :=
  (items.filter (fun pr => classifyItem parse username year pr = ItemClass.matched)).map
    (mkPullRequest repo)

/-- `found_match_this_page` after processing a page. -/
def pageHasMatch (parse : String → NaiveDateTime) (username : String) (year : Nat)
    (items : List RawPR) : Bool :=
  items.any (fun pr => classifyItem parse username year pr = ItemClass.matched)

/-- `found_old_user_pr` after processing a page. -/
def pageHasOld (parse : String → NaiveDateTime) (username : String) (year : Nat)
    (items : List RawPR) : Bool :=
  items.any (fun pr => classifyItem parse username year pr = ItemClass.tooOld)

/-- The `while True` pagination loop of `fetch_merged_prs`, with an explicit
fuel bound standing in for the unbounded loop (`none` means the fuel ran out
before the loop stopped).  `counter` is `consecutive_old_pages`; the source
fixes `max_consecutive_old_pages = 1`. -/
def fetchAux (parse : String → NaiveDateTime) (username : String) (repo : String)
    (year : Nat) (pages : Nat → List RawPR) :
    Nat → Nat → Nat → List PullRequest → Option (List PullRequest)
  | 0, _, _, _ => none
  | fuel + 1, page, counter, acc =>
    if (pages page).isEmpty then some acc
    else if !pageHasMatch parse username year (pages page) &&
        pageHasOld parse username year (pages page) then
      if counter + 1 ≥ 1 then some (acc ++ pagePrs parse username year repo (pages page))
      else
        fetchAux parse username repo year pages fuel (page + 1) (counter + 1)
          (acc ++ pagePrs parse username year repo (pages page))
    else
      fetchAux parse username repo year pages fuel (page + 1)
        (if pageHasMatch parse username year (pages page) then 0 else counter)
        (acc ++ pagePrs parse username year repo (pages page))

/-- `fetch_merged_prs(token, username, repo, year)`: pages are fetched from 1
with `consecutive_old_pages = 0` and `all_prs = []`. -/
def fetch_merged_prs (parse : String → NaiveDateTime) (username : String) (repo : String)
    (year : Nat) (pages : Nat → List RawPR) (fuel : Nat) : Option (List PullRequest) :=
  fetchAux parse username repo year pages fuel 1 0 []

/-! ## Batching/grouping engine (`src/backend/summarize_prs.py`) -/

/-- `pr.source_repo or "unknown"`: an empty string is falsy. -/
def repoKey (pr : PullRequest) : String :=
  if pr.source_repo = "" then "unknown" else pr.source_repo

/-- `group_prs_by_repo(prs)`. -/
def group_prs_by_repo (prs : List PullRequest) : List (String × List PullRequest) :=
  prs.foldl (fun grouped pr => dictAppend grouped (repoKey pr) pr) []

/-- `group_prs_by_label_only(prs)`: a labeled PR is appended under each of its
labels; an unlabeled PR goes under `"unlabeled"`. -/
def group_prs_by_label_only (prs : List PullRequest) : List (String × List PullRequest) :=
  prs.foldl
    (fun grouped pr =>
      if pr.labels.isEmpty then dictAppend grouped "unlabeled" pr
      else pr.labels.foldl (fun g l => dictAppend g l pr) grouped)
    []

/-- The flattened task list of `summarize_prs_in_memory`: group by repo, then
by label within each repo, then flatten to `(repo, label, prs)` triples in
dict insertion order. -/
def tasksOf (prs : List PullRequest) : List (String × String × List PullRequest) :=
  (group_prs_by_repo prs).flatMap (fun rp =>
    (group_prs_by_label_only rp.2).map (fun lp => (rp.1, lp.1, lp.2)))

/-! ## Result formatting (`format_summary_with_citations`) -/

/-- `f"  - [{citation.title}]({citation.url})"`. -/
def citationLine (c : PRCitation) : String :=
  "  - [" ++ c.title ++ "](" ++ c.url ++ ")"

/-- The lines one bullet contributes. -/
def bulletLines (b : SummaryBullet) : List String :=
  ["- **" ++ b.title ++ "**", "",
   "  **Work Done:** " ++ b.work_done, "",
   "  **Cited PRs:**"] ++ b.pr_citations.map citationLine ++
  ["", "  **Significance:**", "  " ++ b.significance]

/-- The lines of an area's bullet list; `if i < len(...) - 1` inserts a blank
line between consecutive bullets but not after the last one. -/
def bulletsLines : List SummaryBullet → List String
  | [] => []
  | [b] => bulletLines b
  | b :: b2 :: rest => bulletLines b ++ [""] ++ bulletsLines (b2 :: rest)

/-- The lines of one career-area section: heading, blank, bullets, blank. -/
def areaLines (area : String) (bs : List SummaryBullet) : List String :=
  ["### " ++ area, ""] ++ bulletsLines bs ++ [""]

/-- Lexicographic strict comparison of code-point sequences, as Python
compares strings. -/
def charListLtb : List Char → List Char → Bool
  | _, [] => false
  | [], _ :: _ => true
  | c₁ :: t₁, c₂ :: t₂ =>
    if c₁ < c₂ then true
    else if c₂ < c₁ then false
    else charListLtb t₁ t₂

/-- Python's `<` on strings. -/
def strLtb (a b : String) : Bool :=
  charListLtb a.data b.data

/-- Python's `<=` on strings: not `b < a`. -/
def strLe (a b : String) : Prop :=
  strLtb b a = false

instance : DecidableRel strLe := fun a b =>
  inferInstanceAs (Decidable (_ = _))

/-- `sorted(...)` on strings: Python sorts lexicographically by code
point. -/
def sortStrings (l : List String) : List String :=
  List.insertionSort strLe l

/-- The `defaultdict(list)` grouping of bullets by `bullet.career_area`. -/
def groupBulletsByArea (bullets : List SummaryBullet) : List (String × List SummaryBullet) :=
  bullets.foldl (fun g b => dictAppend g b.career_area b) []

/-- `format_summary_with_citations(summary_response)`. -/
def format_summary_with_citations (s : SummaryResponse) : String :=
  String.intercalate "\n"
    ((sortStrings (dictKeys (groupBulletsByArea s.bullets))).flatMap (fun area =>
      areaLines area (dictGetD (groupBulletsByArea s.bullets) area [])))

/-! ## Concurrency dispatcher and result assembler (`summarize_prs_in_memory`) -/

/-- `sorted(summaries[repo].items())` sorts the `(label, summary)` tuples
lexicographically. -/
def pairLe (a b : String × String) : Prop :=
  strLtb a.1 b.1 = true ∨ (a.1 = b.1 ∧ strLe a.2 b.2)

instance : DecidableRel pairLe := fun a b =>
  inferInstanceAs (Decidable (_ ∨ _))

def sortPairs (l : List (String × String)) : List (String × String) :=
  List.insertionSort pairLe l

/-- The collection loop `summaries[repo][label] = formatted_summary` over the
completed batches, on a `defaultdict(dict)`. -/
def buildSummaries (results : List (String × String × String)) :
    List (String × List (String × String)) :=
  results.foldl (fun s r => dictSet s r.1 (dictSet (dictGetD s r.1 []) r.2.1 r.2.2)) []

/-- The final markdown assembly of `summarize_prs_in_memory`: repos in sorted
order as `##` sections, then sorted `(label, summary)` items as `###`
sections. -/
def renderSummaries (summaries : List (String × List (String × String))) : String :=
  String.intercalate "\n"
    ((sortStrings (dictKeys summaries)).flatMap (fun repo =>
      ["## " ++ repo, ""] ++
        (sortPairs (dictGetD summaries repo [])).flatMap (fun p =>
          ["### " ++ p.1, "", p.2, ""])))

/-- An oracle giving, for each batch (identified by its `f"{repo}/{label}"`
key and PR list), the attempt-indexed LLM outcomes used by
`summarize_label`. -/
abbrev BatchOracle := String → List PullRequest → LLMOracle

/-- `process_batch(task)`: summarize the batch with the default
`max_retries = 3` and format the result; an exception propagates. -/
def processBatch (oracle : BatchOracle) (task : String × String × List PullRequest) :
    Except String (String × String × String) :=
  let batch_key := task.1 ++ "/" ++ task.2.1
  match (summarize_label (oracle batch_key task.2.2) batch_key task.2.2 3).1 with
  | Except.error e => Except.error e
  | Except.ok resp => Except.ok (task.1, task.2.1, format_summary_with_citations resp)

/-- The dispatch-and-collect phase: every batch is processed, and the first
failing batch's exception propagates out of the pool (`future.result()`
re-raises it), so no partial result survives.  The model runs the batches in
task order; the assembly below is insensitive to this order. -/
def collectResults (oracle : BatchOracle) :
    List (String × String × List PullRequest) → Except String (List (String × String × String))
  | [] => Except.ok []
  | t :: ts =>
    match processBatch oracle t with
    | Except.error e => Except.error e
    | Except.ok r =>
      match collectResults oracle ts with
      | Except.error e => Except.error e
      | Except.ok rs => Except.ok (r :: rs)

/-- `summarize_prs_in_memory(prs, year, openai_api_key, role_requirements)`.
`ThreadPoolExecutor(max_workers=min(len(tasks), 10))` raises
`ValueError("max_workers must be greater than 0")` when the task list is
empty. -/
def summarize_prs_in_memory (oracle : BatchOracle) (prs : List PullRequest) :
    Except String String :=
  let tasks := tasksOf prs
  if min tasks.length 10 = 0 then
    Except.error "max_workers must be greater than 0"
  else
    match collectResults oracle tasks with
    | Except.error e => Except.error e
    | Except.ok results => Except.ok (renderSummaries (buildSummaries results))

/-! ## API layer (`generate_summary` in `src/backend/api.py`) -/

/-- The JSON responses of the `/api/generate-summary` endpoint that matter to
the claims: a 200 with a `summary`, a 400, or a 500. -/
inductive ApiResponse where
  | ok (summary : String)
  | clientError (msg : String)
  | serverError (msg : String)
  deriving DecidableEq, Repr

/-- The literal no-PRs-found document of `generate_summary`. -/
def noPrsDoc (username : String) (repos : List String) (year : Nat) : String :=
  "# No PRs Found\n\nNo merged PRs found for user **" ++ username ++
    "** in repositories " ++
    String.intercalate ", " (repos.map (fun r => "**" ++ r ++ "**")) ++
    " for year **" ++ toString year ++ "**."

/-- The per-repo fetch loop of `generate_summary`: the first failing fetch
returns a 500 naming the repo; otherwise the PR lists are concatenated. -/
def fetchAll (fetchOracle : String → Except String (List PullRequest)) :
    List String → Except (String × String) (List PullRequest)
  | [] => Except.ok []
  | repo :: rest =>
    match fetchOracle repo with
    | Except.error e => Except.error (repo, e)
    | Except.ok rps =>
      match fetchAll fetchOracle rest with
      | Except.error err => Except.error err
      | Except.ok others => Except.ok (rps ++ others)

/-- `generate_summary` after JSON parsing, with fetching and summarization as
oracles.  An empty `repos` list is falsy and fails the required-fields check;
field validation beyond that is out of scope of the claims. -/
def generate_summary (fetchOracle : String → Except String (List PullRequest))
    (summarizeOracle : BatchOracle) (repos : List String) (username : String)
    (year : Nat) : ApiResponse :=
  if repos = [] then ApiResponse.clientError "Missing required fields: repos"
  else
    match fetchAll fetchOracle repos with
    | Except.error err =>
      ApiResponse.serverError ("Error fetching PRs from " ++ err.1 ++ ": " ++ err.2)
    | Except.ok all_prs =>
      if all_prs = [] then ApiResponse.ok (noPrsDoc username repos year)
      else
        match summarize_prs_in_memory summarizeOracle all_prs with
        | Except.error e => ApiResponse.serverError ("Error generating summary: " ++ e)
        | Except.ok s => ApiResponse.ok s

/-! ## Lemmas about the retry loop of `summarize_label` -/

theorem attemptOutcome_ok_no_invalid {oracle : LLMOracle} {urls : List String} {a : Nat}
    {s : SummaryResponse} (h : attemptOutcome oracle urls a = Except.ok s) :
    firstInvalidCitation urls s = none := by
  unfold attemptOutcome at h
  cases ho : oracle a with
  | error e => simp [ho] at h
  | ok s' =>
    simp only [ho] at h
    cases hf : firstInvalidCitation urls s' with
    | some u => simp [hf] at h
    | none =>
      simp only [hf, Except.ok.injEq] at h
      exact h ▸ hf

theorem firstInvalidCitation_none_iff {urls : List String} {s : SummaryResponse} :
    firstInvalidCitation urls s = none ↔
      ∀ b ∈ s.bullets, ∀ c ∈ b.pr_citations, c.url ∈ urls := by
  unfold firstInvalidCitation
  rw [List.findSome?_eq_none_iff]
  constructor
  · intro h b hb c hc
    have := h b hb
    rw [List.findSome?_eq_none_iff] at this
    have hcc := this c hc
    by_cases hmem : c.url ∈ urls
    · exact hmem
    · simp [hmem] at hcc
  · intro h b hb
    rw [List.findSome?_eq_none_iff]
    intro c hc
    have := h b hb c hc
    simp [this]

theorem summarizeLabelGo_zero (oracle : LLMOracle) (urls : List String) (label : String)
    (m a : Nat) (last : Option String) :
    summarizeLabelGo oracle urls label m a 0 last =
      (Except.error (failMessage label m last), []) := rfl

theorem summarizeLabelGo_step_ok {oracle : LLMOracle} {urls : List String} {a : Nat}
    {s : SummaryResponse} (label : String) (m r : Nat) (last : Option String)
    (ho : attemptOutcome oracle urls a = Except.ok s) :
    summarizeLabelGo oracle urls label m a (r + 1) last = (Except.ok s, []) := by
  unfold summarizeLabelGo
  rw [ho]

theorem summarizeLabelGo_step_err_final {oracle : LLMOracle} {urls : List String} {a : Nat}
    {e : String} (label : String) (m : Nat) (last : Option String)
    (ho : attemptOutcome oracle urls a = Except.error e) :
    summarizeLabelGo oracle urls label m a 1 last =
      (Except.error (failMessage label m (some e)), []) := by
  unfold summarizeLabelGo
  rw [ho]

theorem summarizeLabelGo_step_err_retry {oracle : LLMOracle} {urls : List String} {a : Nat}
    {e : String} (label : String) (m r : Nat) (last : Option String)
    (ho : attemptOutcome oracle urls a = Except.error e) :
    summarizeLabelGo oracle urls label m a (r + 2) last =
      ((summarizeLabelGo oracle urls label m (a + 1) (r + 1) (some e)).1,
        2 ^ a :: (summarizeLabelGo oracle urls label m (a + 1) (r + 1) (some e)).2) := by
  conv_lhs => unfold summarizeLabelGo
  rw [ho]

theorem summarizeLabelGo_ok_valid {oracle : LLMOracle} {urls : List String} {label : String}
    {m : Nat} {s : SummaryResponse} :
    ∀ {r a last}, (summarizeLabelGo oracle urls label m a r last).1 = Except.ok s →
      firstInvalidCitation urls s = none := by
  intro r
  induction r with
  | zero =>
    intro a last h
    rw [summarizeLabelGo_zero] at h
    exact absurd h (by simp)
  | succ r ih =>
    intro a last h
    cases ho : attemptOutcome oracle urls a with
    | ok s' =>
      rw [summarizeLabelGo_step_ok label m r last ho] at h
      simp only [Except.ok.injEq] at h
      exact h ▸ attemptOutcome_ok_no_invalid ho
    | error e =>
      cases r with
      | zero =>
        rw [summarizeLabelGo_step_err_final label m last ho] at h
        exact absurd h (by simp)
      | succ r' =>
        rw [summarizeLabelGo_step_err_retry label m r' last ho] at h
        exact ih h

theorem summarizeLabelGo_all_fail (oracle : LLMOracle) (urls : List String) (label : String)
    (m : Nat) (e : Nat → String) :
    ∀ r, 1 ≤ r → ∀ a last,
      (∀ j, a ≤ j → j < a + r → attemptOutcome oracle urls j = Except.error (e j)) →
      summarizeLabelGo oracle urls label m a r last =
        (Except.error (failMessage label m (some (e (a + r - 1)))),
          (List.range (r - 1)).map (fun i => 2 ^ (a + i))) := by
  intro r
  induction r with
  | zero => intro h; exact absurd h (by omega)
  | succ r ih =>
    intro _ a last hfail
    have ha : attemptOutcome oracle urls a = Except.error (e a) :=
      hfail a le_rfl (by omega)
    cases r with
    | zero =>
      rw [summarizeLabelGo_step_err_final label m last ha]
      simp
    | succ r' =>
      have hrest := ih (by omega) (a + 1) (some (e a))
        (fun j hj1 hj2 => hfail j (by omega) (by omega))
      rw [summarizeLabelGo_step_err_retry label m r' last ha, hrest]
      have hidx : a + 1 + (r' + 1) - 1 = a + (r' + 1 + 1) - 1 := by omega
      rw [hidx]
      refine Prod.ext rfl ?_
      · simp only [Nat.succ_sub_one, List.range_succ_eq_map, List.map_cons, List.map_map]
        refine congrArg₂ _ (by simp) (List.map_congr_left ?_)
        intro i _
        simp only [Function.comp]
        congr 1
        omega

theorem summarizeLabelGo_success (oracle : LLMOracle) (urls : List String) (label : String)
    (m : Nat) (e : Nat → String) (s : SummaryResponse) :
    ∀ k a r last, k < r →
      (∀ j, a ≤ j → j < a + k → attemptOutcome oracle urls j = Except.error (e j)) →
      attemptOutcome oracle urls (a + k) = Except.ok s →
      summarizeLabelGo oracle urls label m a r last =
        (Except.ok s, (List.range k).map (fun i => 2 ^ (a + i))) := by
  intro k
  induction k with
  | zero =>
    intro a r last hr _ hok
    cases r with
    | zero => omega
    | succ r' =>
      rw [summarizeLabelGo_step_ok label m r' last (by simpa using hok)]
      simp
  | succ k ih =>
    intro a r last hr hfail hok
    have ha : attemptOutcome oracle urls a = Except.error (e a) :=
      hfail a le_rfl (by omega)
    cases r with
    | zero => omega
    | succ r' =>
      cases r' with
      | zero => omega
      | succ r'' =>
        have hrest := ih (a + 1) (r'' + 1) (some (e a)) (by omega)
          (fun j hj1 hj2 => hfail j (by omega) (by omega))
          (by rw [show a + 1 + k = a + (k + 1) by omega]; exact hok)
        rw [summarizeLabelGo_step_err_retry label m r'' last ha, hrest]
        refine Prod.ext rfl ?_
        simp only [List.range_succ_eq_map, List.map_cons, List.map_map]
        refine congrArg₂ _ (by simp) (List.map_congr_left ?_)
        intro i _
        simp only [Function.comp]
        congr 1
        omega

theorem summarizeLabelGo_error_all_fail {oracle : LLMOracle} {urls : List String}
    {label : String} {m : Nat} :
    ∀ {r a last err},
      (summarizeLabelGo oracle urls label m a r last).1 = Except.error err →
      ∀ j, a ≤ j → j < a + r → ∃ msg, attemptOutcome oracle urls j = Except.error msg := by
  intro r
  induction r with
  | zero => intro a last err _ j h1 h2; omega
  | succ r ih =>
    intro a last err h j h1 h2
    cases ho : attemptOutcome oracle urls a with
    | ok s' =>
      rw [summarizeLabelGo_step_ok label m r last ho] at h
      exact absurd h (by simp)
    | error e =>
      rcases Nat.eq_or_lt_of_le h1 with rfl | hlt
      · exact ⟨e, ho⟩
      · cases r with
        | zero => omega
        | succ r' =>
          rw [summarizeLabelGo_step_err_retry label m r' last ho] at h
          exact ih h j hlt (by omega)

/-! ## Sample values for concrete witnesses -/

def samplePR : PullRequest :=
  { title := "Add parser module"
    description := "adds a parser"
    url := "https://github.com/o/r/pull/1"
    merged_at := "2025-03-01T12:00:00Z"
    labels := ["backend"]
    source_repo := "o/r" }

def sampleGoodResp : SummaryResponse :=
  ⟨[{ title := "Built parsing"
      work_done := "built the parser"
      significance := "matches area"
      career_area := "Area A"
      pr_citations := [{ title := "Add parser module", url := "https://github.com/o/r/pull/1" }] }]⟩

def sampleBadResp : SummaryResponse :=
  ⟨[{ title := "Built parsing"
      work_done := "built the parser"
      significance := "matches area"
      career_area := "Area A"
      pr_citations := [{ title := "Foreign", url := "https://github.com/x/y/pull/9" }] }]⟩

/-- C1: `summarize_label` accepts a parsed `SummaryResponse` only if every
citation URL in every bullet belongs to the URL set of the PRs passed into
the call; a citation to an unknown URL makes the attempt raise a validation
error (not a silent drop), and while the retry budget allows another attempt
the call is retried. -/
theorem summarize_label_citation_integrity
    (oracle : LLMOracle) (label : String) (prs : List PullRequest) (m : Nat) :
    (∀ s, (summarize_label oracle label prs m).1 = Except.ok s →
      ∀ b ∈ s.bullets, ∀ c ∈ b.pr_citations, c.url ∈ prs.map (·.url))
    ∧ (∀ j s u, oracle j = Except.ok s →
        firstInvalidCitation (prs.map (·.url)) s = some u →
        attemptOutcome oracle (prs.map (·.url)) j =
          Except.error ("Cited URL " ++ u ++ " is not in the provided PRs"))
    ∧ (∀ a r last e, attemptOutcome oracle (prs.map (·.url)) a = Except.error e →
        summarizeLabelGo oracle (prs.map (·.url)) label m a (r + 2) last =
          ((summarizeLabelGo oracle (prs.map (·.url)) label m (a + 1) (r + 1) (some e)).1,
            2 ^ a ::
              (summarizeLabelGo oracle (prs.map (·.url)) label m (a + 1) (r + 1) (some e)).2)) := by
  refine ⟨?_, ?_, ?_⟩
  · intro s h
    exact firstInvalidCitation_none_iff.mp (summarizeLabelGo_ok_valid h)
  · intro j s u ho hf
    simp only [attemptOutcome, ho, hf]
  · intro a r last e h
    exact summarizeLabelGo_step_err_retry label m r last h

/-- Witness for C1 at a concrete batch: a response citing a foreign URL is
rejected by the validation step. -/
theorem summarize_label_citation_integrity_witness :
    attemptOutcome (fun _ => Except.ok sampleBadResp) ([samplePR].map (·.url)) 0 =
      Except.error
        ("Cited URL " ++ "https://github.com/x/y/pull/9" ++ " is not in the provided PRs") :=
  (summarize_label_citation_integrity (fun _ => Except.ok sampleBadResp) "o/r/backend"
    [samplePR] 3).2.1 0 sampleBadResp "https://github.com/x/y/pull/9" rfl (by decide)

/-- C2: the retry loop of `summarize_label` sleeps `2 ^ attempt` time units
between consecutive attempts, performs no sleep after the final failure,
fails permanently exactly when all `max_retries` attempts fail — with a
terminal error naming the batch label and the last underlying cause — and
returns the first successful attempt's response with total sleep equal to
the delays of the preceding failed attempts. -/
theorem summarize_label_retry_policy (oracle : LLMOracle) (label : String)
    (prs : List PullRequest) (m : Nat) (e : Nat → String) (hm : 1 ≤ m) :
    ((∀ j, j < m → attemptOutcome oracle (prs.map (·.url)) j = Except.error (e j)) →
      summarize_label oracle label prs m =
        (Except.error (failMessage label m (some (e (m - 1)))),
          (List.range (m - 1)).map (fun i => 2 ^ i)))
    ∧ (∀ k s, k < m →
        (∀ j, j < k → attemptOutcome oracle (prs.map (·.url)) j = Except.error (e j)) →
        attemptOutcome oracle (prs.map (·.url)) k = Except.ok s →
        summarize_label oracle label prs m =
          (Except.ok s, (List.range k).map (fun i => 2 ^ i)))
    ∧ (∀ err, (summarize_label oracle label prs m).1 = Except.error err →
        ∀ j, j < m → ∃ msg, attemptOutcome oracle (prs.map (·.url)) j = Except.error msg) := by
  refine ⟨?_, ?_, ?_⟩
  · intro hfail
    unfold summarize_label
    rw [summarizeLabelGo_all_fail oracle (prs.map (·.url)) label m e m hm 0 none
      (fun j _ hj2 => hfail j (by omega))]
    simp
  · intro k s hk hfail hok
    unfold summarize_label
    rw [summarizeLabelGo_success oracle (prs.map (·.url)) label m e s k 0 m none hk
      (fun j _ hj2 => hfail j (by omega)) (by simpa using hok)]
    simp
  · intro err h j hj
    have h' : (summarizeLabelGo oracle (prs.map (·.url)) label m 0 m none).1 =
        Except.error err := h
    exact summarizeLabelGo_error_all_fail h' j (by omega) (by omega)

/-- Witness for C2 at a concrete batch: with two attempts that both fail, the
call fails terminally after one sleep of `2 ^ 0 = 1` time unit and the error
names the batch and the last cause. -/
theorem summarize_label_retry_policy_witness :
    summarize_label (fun _ => Except.error "boom") "k" [] 2 =
      (Except.error (failMessage "k" 2 (some "boom")), [1]) := by
  have h := (summarize_label_retry_policy (fun _ => Except.error "boom") "k" [] 2
    (fun _ => "boom") (by norm_num)).1 (fun j _ => rfl)
  simpa using h

/-! ## Lemmas about insertion-ordered dictionaries -/

theorem dictKeys_cons {β : Type} (p : String × β) (d : List (String × β)) :
    dictKeys (p :: d) = p.1 :: dictKeys d := rfl

theorem dictAppend_cons_of_eq {α : Type} (k : String) (vs : List α) (tl : List (String × List α))
    (v : α) : dictAppend ((k, vs) :: tl) k v = (k, vs ++ [v]) :: tl := by
  simp [dictAppend]

theorem dictAppend_cons_of_ne {α : Type} (k₀ : String) (vs : List α)
    (tl : List (String × List α)) (k : String) (v : α) (h : ¬ k₀ = k) :
    dictAppend ((k₀, vs) :: tl) k v = (k₀, vs) :: dictAppend tl k v := by
  simp [dictAppend, h]

theorem dictFind_cons {β : Type} (k₀ : String) (v₀ : β) (tl : List (String × β)) (q : String) :
    dictFind ((k₀, v₀) :: tl) q = if k₀ = q then some v₀ else dictFind tl q := rfl

theorem dictFind_dictAppend {α : Type} (d : List (String × List α)) (k : String) (v : α)
    (q : String) :
    dictFind (dictAppend d k v) q =
      if q = k then some (dictGetD d k [] ++ [v]) else dictFind d q := by
  induction d with
  | nil =>
    show dictFind [(k, [v])] q = _
    rw [dictFind_cons]
    by_cases h : q = k
    · subst h; simp [dictGetD, dictFind]
    · rw [if_neg (fun hh : k = q => h hh.symm), if_neg h]
  | cons hd tl ih =>
    obtain ⟨k₀, vs₀⟩ := hd
    by_cases hk : k₀ = k
    · subst hk
      rw [dictAppend_cons_of_eq, dictFind_cons, dictFind_cons]
      by_cases hq : k₀ = q
      · subst hq
        rw [if_pos rfl, if_pos rfl]
        simp [dictGetD, dictFind_cons]
      · rw [if_neg hq, if_neg hq, if_neg (fun hh : q = k₀ => hq hh.symm)]
    · rw [dictAppend_cons_of_ne _ _ _ _ _ hk, dictFind_cons, ih, dictFind_cons]
      by_cases hq : k₀ = q
      · subst hq
        rw [if_pos rfl, if_neg (fun hh : k₀ = k => hk hh), if_pos rfl]
      · rw [if_neg hq, if_neg hq]
        by_cases hqk : q = k
        · rw [if_pos hqk, if_pos hqk]
          simp [dictGetD, dictFind_cons, hk]
        · rw [if_neg hqk, if_neg hqk]

theorem dictGetD_dictAppend {α : Type} (d : List (String × List α)) (k : String) (v : α)
    (q : String) :
    dictGetD (dictAppend d k v) q [] =
      if q = k then dictGetD d k [] ++ [v] else dictGetD d q [] := by
  unfold dictGetD
  rw [dictFind_dictAppend]
  by_cases h : q = k <;> simp [h, dictGetD]

theorem dictKeys_dictAppend {α : Type} (d : List (String × List α)) (k : String) (v : α) :
    dictKeys (dictAppend d k v) =
      if k ∈ dictKeys d then dictKeys d else dictKeys d ++ [k] := by
  induction d with
  | nil => simp [dictAppend, dictKeys]
  | cons hd tl ih =>
    obtain ⟨k₀, vs₀⟩ := hd
    by_cases hk : k₀ = k
    · subst hk
      rw [dictAppend_cons_of_eq, dictKeys_cons, dictKeys_cons,
        if_pos (by simp : k₀ ∈ k₀ :: dictKeys tl)]
    · rw [dictAppend_cons_of_ne _ _ _ _ _ hk, dictKeys_cons, ih, dictKeys_cons]
      by_cases hmem : k ∈ dictKeys tl
      · rw [if_pos hmem, if_pos (by simp [hmem])]
      · rw [if_neg hmem,
          if_neg (by
            simp only [List.mem_cons, not_or]
            exact ⟨fun hh => hk hh.symm, hmem⟩),
          List.cons_append]

theorem mem_dictKeys_dictAppend {α : Type} (d : List (String × List α)) (k : String) (v : α)
    (q : String) :
    q ∈ dictKeys (dictAppend d k v) ↔ q ∈ dictKeys d ∨ q = k := by
  rw [dictKeys_dictAppend]
  by_cases h : k ∈ dictKeys d
  · simp only [if_pos h]
    constructor
    · exact Or.inl
    · rintro (hq | rfl)
      · exact hq
      · exact h
  · simp [if_neg h]

theorem nodup_dictKeys_dictAppend {α : Type} (d : List (String × List α)) (k : String)
    (v : α) (h : (dictKeys d).Nodup) : (dictKeys (dictAppend d k v)).Nodup := by
  rw [dictKeys_dictAppend]
  by_cases hm : k ∈ dictKeys d
  · rwa [if_pos hm]
  · rw [if_neg hm, List.nodup_append]
    refine ⟨h, List.nodup_singleton _, ?_⟩
    intro x hx hxk
    rw [List.mem_singleton] at hxk
    exact hm (hxk ▸ hx)

theorem values_ne_nil_dictAppend {α : Type} :
    ∀ (d : List (String × List α)) (k : String) (v : α),
      (∀ p ∈ d, p.2 ≠ []) → ∀ p ∈ dictAppend d k v, p.2 ≠ []
  | [], k, v, _, p, hp => by
    simp only [dictAppend, List.mem_singleton] at hp
    subst hp
    simp
  | (k₀, vs₀) :: tl, k, v, h, p, hp => by
    by_cases hk : k₀ = k
    · subst hk
      rw [dictAppend_cons_of_eq] at hp
      rcases List.mem_cons.mp hp with rfl | hp'
      · simp
      · exact h p (List.mem_cons_of_mem _ hp')
    · rw [dictAppend_cons_of_ne _ _ _ _ _ hk] at hp
      rcases List.mem_cons.mp hp with rfl | hp'
      · exact h _ (List.mem_cons_self _ _)
      · exact values_ne_nil_dictAppend tl k v
          (fun q hq => h q (List.mem_cons_of_mem _ hq)) p hp'

/-- Folding a list of `(key, value)` pairs with `dictAppend`, as the grouping
loops do. -/
def pairsFold {α : Type} (ps : List (String × α)) : List (String × List α) :=
  ps.foldl (fun g p => dictAppend g p.1 p.2) []

theorem dictGetD_foldl_dictAppend {α : Type} (ps : List (String × α)) :
    ∀ (d : List (String × List α)) (q : String),
      dictGetD (ps.foldl (fun g p => dictAppend g p.1 p.2) d) q [] =
        dictGetD d q [] ++ (ps.filter (fun p => p.1 = q)).map (·.2) := by
  induction ps with
  | nil => intro d q; simp
  | cons p ps ih =>
    intro d q
    simp only [List.foldl_cons]
    rw [ih]
    by_cases h : p.1 = q
    · rw [List.filter_cons_of_pos (by simpa using h)]
      rw [dictGetD_dictAppend, if_pos h.symm, h]
      simp
    · rw [List.filter_cons_of_neg (by simpa using h)]
      rw [dictGetD_dictAppend, if_neg (fun hh => h hh.symm)]

theorem dictGetD_pairsFold {α : Type} (ps : List (String × α)) (q : String) :
    dictGetD (pairsFold ps) q [] = (ps.filter (fun p => p.1 = q)).map (·.2) := by
  unfold pairsFold
  rw [dictGetD_foldl_dictAppend]
  simp [dictGetD, dictFind]

theorem mem_dictGetD_pairsFold {α : Type} (ps : List (String × α)) (q : String) (x : α) :
    x ∈ dictGetD (pairsFold ps) q [] ↔ (q, x) ∈ ps := by
  rw [dictGetD_pairsFold]
  simp only [List.mem_map, List.mem_filter, decide_eq_true_eq]
  constructor
  · rintro ⟨p, ⟨hp, hq⟩, rfl⟩
    have hpe : (q, p.2) = p := by
      rw [← hq]
    exact hpe ▸ hp
  · intro h
    exact ⟨(q, x), ⟨h, rfl⟩, rfl⟩

theorem mem_dictKeys_foldl_dictAppend {α : Type} (ps : List (String × α)) :
    ∀ (d : List (String × List α)) (q : String),
      q ∈ dictKeys (ps.foldl (fun g p => dictAppend g p.1 p.2) d) ↔
        q ∈ dictKeys d ∨ q ∈ ps.map (·.1) := by
  induction ps with
  | nil => intro d q; simp
  | cons p ps ih =>
    intro d q
    simp only [List.foldl_cons]
    rw [ih, mem_dictKeys_dictAppend]
    simp only [List.map_cons, List.mem_cons]
    tauto

theorem values_ne_nil_foldl_dictAppend {α : Type} (ps : List (String × α)) :
    ∀ (d : List (String × List α)), (∀ p ∈ d, p.2 ≠ []) →
      ∀ p ∈ ps.foldl (fun g p => dictAppend g p.1 p.2) d, p.2 ≠ [] := by
  induction ps with
  | nil => intro d h; exact h
  | cons p ps ih =>
    intro d h
    exact ih _ (values_ne_nil_dictAppend _ _ _ h)

/-! ## Characterization of the grouping functions -/

theorem group_prs_by_repo_eq_pairsFold (prs : List PullRequest) :
    group_prs_by_repo prs = pairsFold (prs.map (fun pr => (repoKey pr, pr))) := by
  unfold group_prs_by_repo pairsFold
  rw [List.foldl_map]

/-- The dict keys a single PR is appended under by `group_prs_by_label_only`. -/
def labelKeys (pr : PullRequest) : List String :=
  if pr.labels.isEmpty then ["unlabeled"] else pr.labels

/-- The `(key, pr)` append events of `group_prs_by_label_only`, flattened. -/
def labelPairs (prs : List PullRequest) : List (String × PullRequest) :=
  prs.flatMap (fun pr => (labelKeys pr).map (fun l => (l, pr)))

theorem group_prs_by_label_only_eq_pairsFold (prs : List PullRequest) :
    group_prs_by_label_only prs = pairsFold (labelPairs prs) := by
  suffices h : ∀ d : List (String × List PullRequest),
      prs.foldl
        (fun grouped pr =>
          if pr.labels.isEmpty then dictAppend grouped "unlabeled" pr
          else pr.labels.foldl (fun g l => dictAppend g l pr) grouped)
        d =
      (labelPairs prs).foldl (fun g p => dictAppend g p.1 p.2) d by
    exact h []
  induction prs with
  | nil => intro d; rfl
  | cons pr prs ih =>
    intro d
    simp only [List.foldl_cons, labelPairs, List.flatMap_cons, List.foldl_append]
    have hstep :
        (if pr.labels.isEmpty then dictAppend d "unlabeled" pr
          else pr.labels.foldl (fun g l => dictAppend g l pr) d) =
        ((labelKeys pr).map (fun l => (l, pr))).foldl (fun g p => dictAppend g p.1 p.2) d := by
      rw [List.foldl_map]
      unfold labelKeys
      by_cases hl : pr.labels.isEmpty
      · rw [if_pos hl, if_pos hl]
        rfl
      · rw [if_neg hl, if_neg hl]
    rw [← hstep]
    exact ih _

theorem mem_group_prs_by_repo (prs : List PullRequest) (r : String) (pr : PullRequest) :
    pr ∈ dictGetD (group_prs_by_repo prs) r [] ↔ pr ∈ prs ∧ repoKey pr = r := by
  rw [group_prs_by_repo_eq_pairsFold, mem_dictGetD_pairsFold]
  simp only [List.mem_map, Prod.mk.injEq]
  constructor
  · rintro ⟨pr', hpr', hkey, rfl⟩
    exact ⟨hpr', hkey⟩
  · rintro ⟨hpr, hkey⟩
    exact ⟨pr, hpr, hkey, rfl⟩

theorem mem_group_prs_by_label_only (prs : List PullRequest) (k : String) (pr : PullRequest) :
    pr ∈ dictGetD (group_prs_by_label_only prs) k [] ↔ pr ∈ prs ∧ k ∈ labelKeys pr := by
  rw [group_prs_by_label_only_eq_pairsFold, mem_dictGetD_pairsFold]
  simp only [labelPairs, List.mem_flatMap, List.mem_map, Prod.mk.injEq]
  constructor
  · rintro ⟨pr', hpr', l, hl, rfl, rfl⟩
    exact ⟨hpr', hl⟩
  · rintro ⟨hpr, hk⟩
    exact ⟨pr, hpr, k, hk, rfl, rfl⟩

theorem mem_labelKeys (pr : PullRequest) (k : String) :
    k ∈ labelKeys pr ↔ (if pr.labels = [] then k = "unlabeled" else k ∈ pr.labels) := by
  unfold labelKeys
  by_cases h : pr.labels.isEmpty
  · rw [if_pos h, if_pos (List.isEmpty_iff.mp h)]
    simp
  · rw [if_neg h, if_neg (fun hh => h (List.isEmpty_iff.mpr hh))]

/-- The inner label batches of a given repo built by `summarize_prs_in_memory`:
`batches[repo] = group_prs_by_label_only(grouped_by_repo[repo])`. -/
def labelBatchesFor (prs : List PullRequest) (repo : String) :
    List (String × List PullRequest) :=
  group_prs_by_label_only (dictGetD (group_prs_by_repo prs) repo [])

/-- C4: a PR belongs to the inner batch keyed `k` of repo `r` exactly when
`r` is its repo key and `k` is one of its labels (or the `"unlabeled"`
sentinel when it has none) — so a PR with label set `{A, B}` is in exactly
the inner batches `A` and `B` of its repo — and no produced batch, at either
grouping level, is empty. -/
theorem batching_fanout_and_nonempty (prs : List PullRequest) :
    (∀ (r k : String) (pr : PullRequest),
      pr ∈ dictGetD (labelBatchesFor prs r) k [] ↔
        pr ∈ prs ∧ repoKey pr = r ∧
          (if pr.labels = [] then k = "unlabeled" else k ∈ pr.labels))
    ∧ (∀ p ∈ group_prs_by_repo prs, p.2 ≠ [])
    ∧ (∀ r, ∀ p ∈ labelBatchesFor prs r, p.2 ≠ []) := by
  refine ⟨?_, ?_, ?_⟩
  · intro r k pr
    rw [labelBatchesFor, mem_group_prs_by_label_only, mem_group_prs_by_repo, mem_labelKeys,
      and_assoc]
  · rw [group_prs_by_repo_eq_pairsFold]
    exact values_ne_nil_foldl_dictAppend _ [] (by simp)
  · intro r
    rw [labelBatchesFor, group_prs_by_label_only_eq_pairsFold]
    exact values_ne_nil_foldl_dictAppend _ [] (by simp)

/-- Witness for C4 at a concrete input: the sample PR (one label `"backend"`,
repo `"o/r"`) lands in the `("o/r", "backend")` batch and not in an
`"unlabeled"` batch. -/
theorem batching_fanout_and_nonempty_witness :
    samplePR ∈ dictGetD (labelBatchesFor [samplePR] "o/r") "backend" [] ∧
      samplePR ∉ dictGetD (labelBatchesFor [samplePR] "o/r") "unlabeled" [] :=
  ⟨((batching_fanout_and_nonempty [samplePR]).1 "o/r" "backend" samplePR).mpr (by decide),
    fun h => by
      have := ((batching_fanout_and_nonempty [samplePR]).1 "o/r" "unlabeled" samplePR).mp h
      revert this
      decide⟩

/-! ## Lemmas about the fetcher -/

theorem leb_iff_ltb_false (a b : NaiveDateTime) : a.leb b = true ↔ b.ltb a = false := by
  unfold NaiveDateTime.leb
  cases b.ltb a <;> simp

theorem classifyItem_matched_iff (parse : String → NaiveDateTime) (username : String)
    (year : Nat) (pr : RawPR) :
    classifyItem parse username year pr = ItemClass.matched ↔
      ∃ ts l, pr.merged_at = some ts ∧ ts ≠ "" ∧ pr.login = some l ∧
        strLower l = strLower username ∧
        (startDate year).leb (parse ts) = true ∧ (parse ts).leb (endDate year) = true := by
  unfold classifyItem
  cases hma : pr.merged_at with
  | none => simp
  | some ts =>
    simp only [Option.some.injEq]
    by_cases hts : ts = ""
    · subst hts
      simp
    · rw [if_neg hts]
      cases hl : pr.login with
      | none => simp
      | some l =>
        simp only [Option.some.injEq]
        by_cases hlo : strLower l = strLower username
        · rw [if_neg (fun hc => hc hlo)]
          by_cases h1 : (parse ts).ltb (startDate year)
          · simp [h1, leb_iff_ltb_false, hts, hlo]
          · by_cases h2 : (endDate year).ltb (parse ts)
            · simp [eq_false_of_ne_true (by simpa using h1), h2, leb_iff_ltb_false, hts, hlo]
            · simp [eq_false_of_ne_true (by simpa using h1),
                eq_false_of_ne_true (by simpa using h2), leb_iff_ltb_false, hts, hlo]
        · rw [if_pos hlo]
          simp [hts, hlo]

theorem mem_pagePrs (parse : String → NaiveDateTime) (username : String) (year : Nat)
    (repo : String) (items : List RawPR) (p : PullRequest) :
    p ∈ pagePrs parse username year repo items ↔
      ∃ raw ∈ items, classifyItem parse username year raw = ItemClass.matched ∧
        p = mkPullRequest repo raw := by
  unfold pagePrs
  simp only [List.mem_map, List.mem_filter, decide_eq_true_eq]
  constructor
  · rintro ⟨raw, ⟨hraw, hcl⟩, rfl⟩
    exact ⟨raw, hraw, hcl, rfl⟩
  · rintro ⟨raw, hraw, hcl, rfl⟩
    exact ⟨raw, ⟨hraw, hcl⟩, rfl⟩

theorem fetchAux_succ (parse : String → NaiveDateTime) (username : String) (repo : String)
    (year : Nat) (pages : Nat → List RawPR) (fuel page counter : Nat)
    (acc : List PullRequest) :
    fetchAux parse username repo year pages (fuel + 1) page counter acc =
      if (pages page).isEmpty then some acc
      else if !pageHasMatch parse username year (pages page) &&
          pageHasOld parse username year (pages page) then
        if counter + 1 ≥ 1 then some (acc ++ pagePrs parse username year repo (pages page))
        else
          fetchAux parse username repo year pages fuel (page + 1) (counter + 1)
            (acc ++ pagePrs parse username year repo (pages page))
      else
        fetchAux parse username repo year pages fuel (page + 1)
          (if pageHasMatch parse username year (pages page) then 0 else counter)
          (acc ++ pagePrs parse username year repo (pages page)) := rfl

theorem fetchAux_mem (parse : String → NaiveDateTime) (username : String) (repo : String)
    (year : Nat) (pages : Nat → List RawPR) :
    ∀ (fuel : Nat), ∀ {page counter : Nat} {acc res : List PullRequest},
      fetchAux parse username repo year pages fuel page counter acc = some res →
      ∀ p ∈ res, p ∈ acc ∨
        ∃ n raw, raw ∈ pages n ∧
          classifyItem parse username year raw = ItemClass.matched ∧
          p = mkPullRequest repo raw := by
  intro fuel
  induction fuel with
  | zero => intro page counter acc res h; exact absurd h (by simp [fetchAux])
  | succ fuel ih =>
    intro page counter acc res h p hp
    rw [fetchAux_succ] at h
    by_cases he : (pages page).isEmpty
    · rw [if_pos he] at h
      cases h
      exact Or.inl hp
    · rw [if_neg he] at h
      have hsplit :
          ∀ q, q ∈ acc ++ pagePrs parse username year repo (pages page) →
            q ∈ acc ∨ ∃ n raw, raw ∈ pages n ∧
              classifyItem parse username year raw = ItemClass.matched ∧
              q = mkPullRequest repo raw := by
        intro q hq
        rcases List.mem_append.mp hq with hq | hq
        · exact Or.inl hq
        · rcases (mem_pagePrs parse username year repo (pages page) q).mp hq with
            ⟨raw, hraw, hcl, rfl⟩
          exact Or.inr ⟨page, raw, hraw, hcl, rfl⟩
      by_cases hc : (!pageHasMatch parse username year (pages page) &&
          pageHasOld parse username year (pages page)) = true
      · rw [if_pos hc, if_pos (by omega)] at h
        cases h
        exact hsplit p hp
      · rw [if_neg hc] at h
        rcases ih h p hp with hmem | hfound
        · exact hsplit p hmem
        · exact Or.inr hfound

/-- Stopping condition of the pagination loop at page `n`: the page is empty,
or it has no matches for the target year and contains one of the user's own
PRs merged before the target year. -/
def stopCond (parse : String → NaiveDateTime) (username : String) (year : Nat)
    (pages : Nat → List RawPR) (n : Nat) : Prop :=
  (pages n).isEmpty = true ∨
    (pageHasMatch parse username year (pages n) = false ∧
      pageHasOld parse username year (pages n) = true)

theorem fetchAux_isSome_of_stop (parse : String → NaiveDateTime) (username : String)
    (repo : String) (year : Nat) (pages : Nat → List RawPR) (N : Nat)
    (hstop : stopCond parse username year pages N) :
    ∀ (fuel : Nat), ∀ {page counter : Nat} {acc : List PullRequest},
      page ≤ N → N < page + fuel →
      (fetchAux parse username repo year pages fuel page counter acc).isSome = true := by
  intro fuel
  induction fuel with
  | zero => intro page counter acc h1 h2; omega
  | succ fuel ih =>
    intro page counter acc h1 h2
    rw [fetchAux_succ]
    by_cases he : (pages page).isEmpty
    · rw [if_pos he]; rfl
    · rw [if_neg he]
      by_cases hc : (!pageHasMatch parse username year (pages page) &&
          pageHasOld parse username year (pages page)) = true
      · rw [if_pos hc, if_pos (by omega)]; rfl
      · rw [if_neg hc]
        have hne : page ≠ N := by
          intro hpn
          subst hpn
          rcases hstop with hseN | ⟨hm, ho⟩
          · exact he hseN
          · exact hc (by rw [hm, ho]; rfl)
        exact ih (by omega) (by omega)

/-! ## Sample raw items for fetcher witnesses -/

/-- A constant stand-in for `datetime.fromisoformat` + `tzinfo` strip. -/
def sampleParse : String → NaiveDateTime := fun _ => ⟨2025, 3, 1, 12, 0, 0⟩

def sampleRaw : RawPR :=
  { merged_at := some "2025-03-01T12:00:00Z"
    login := some "Alice"
    title := "Add parser module"
    body := some "adds a parser"
    html_url := "https://github.com/o/r/pull/1"
    labels := ["backend"] }

def samplePages : Nat → List RawPR := fun n => if n = 1 then [sampleRaw] else []

/-- C3: every emitted PullRequest arises from a raw item that was merged
(non-absent, non-empty `merged_at`), whose author login equals the username
case-insensitively, and whose parsed timezone-stripped merge date lies
inclusively in `[year-01-01T00:00:00, year-12-31T23:59:59]`; the emitted
record carries the URL, title, body-or-empty description, label names and
originating repo. -/
theorem fetch_merged_prs_filter (parse : String → NaiveDateTime) (username : String)
    (repo : String) (year : Nat) (pages : Nat → List RawPR) :
    (∀ fuel res, fetch_merged_prs parse username repo year pages fuel = some res →
      ∀ p ∈ res, ∃ n raw, raw ∈ pages n ∧
        classifyItem parse username year raw = ItemClass.matched ∧
        p = mkPullRequest repo raw)
    ∧ (∀ raw, classifyItem parse username year raw = ItemClass.matched ↔
        ∃ ts l, raw.merged_at = some ts ∧ ts ≠ "" ∧ raw.login = some l ∧
          strLower l = strLower username ∧
          (startDate year).leb (parse ts) = true ∧ (parse ts).leb (endDate year) = true)
    ∧ (∀ raw, (mkPullRequest repo raw).url = raw.html_url ∧
        (mkPullRequest repo raw).title = raw.title ∧
        (mkPullRequest repo raw).description = raw.body.getD "" ∧
        (mkPullRequest repo raw).labels = raw.labels ∧
        (mkPullRequest repo raw).source_repo = repo ∧
        (mkPullRequest repo raw).merged_at = raw.merged_at.getD "") := by
  refine ⟨?_, ?_, ?_⟩
  · intro fuel res h p hp
    rcases fetchAux_mem parse username repo year pages fuel h p hp with hmem | hfound
    · exact absurd hmem (by simp)
    · exact hfound
  · intro raw
    exact classifyItem_matched_iff parse username year raw
  · intro raw
    exact ⟨rfl, rfl, rfl, rfl, rfl, rfl⟩

/-- Witness for C3 at a concrete run: the single emitted PR of the sample
page sequence comes from the sample raw item, which passes all three
checks. -/
theorem fetch_merged_prs_filter_witness :
    ∃ n raw, raw ∈ samplePages n ∧
      classifyItem sampleParse "alice" 2025 raw = ItemClass.matched ∧
      mkPullRequest "o/r" sampleRaw = mkPullRequest "o/r" raw :=
  (fetch_merged_prs_filter sampleParse "alice" "o/r" 2025 samplePages).1 2
    [mkPullRequest "o/r" sampleRaw] (by decide) (mkPullRequest "o/r" sampleRaw) (by decide)

/-- C9: the pagination loop stops on an empty page; on a page with no
target-year matches but at least one of the user's own older PRs it stops
right there (`max_consecutive_old_pages = 1`); hence the loop terminates on
any page sequence that eventually contains an empty or such an all-old
page. -/
theorem fetch_pagination_termination (parse : String → NaiveDateTime) (username : String)
    (repo : String) (year : Nat) (pages : Nat → List RawPR) :
    (∀ N, 1 ≤ N → stopCond parse username year pages N →
      ∀ fuel, N ≤ fuel →
        (fetch_merged_prs parse username repo year pages fuel).isSome = true)
    ∧ (∀ fuel page counter acc, (pages page).isEmpty = true →
        fetchAux parse username repo year pages (fuel + 1) page counter acc = some acc)
    ∧ (∀ fuel page counter acc, (pages page).isEmpty = false →
        pageHasMatch parse username year (pages page) = false →
        pageHasOld parse username year (pages page) = true →
        fetchAux parse username repo year pages (fuel + 1) page counter acc =
          some (acc ++ pagePrs parse username year repo (pages page))) := by
  refine ⟨?_, ?_, ?_⟩
  · intro N h1 hstop fuel hfuel
    exact fetchAux_isSome_of_stop parse username repo year pages N hstop fuel h1 (by omega)
  · intro fuel page counter acc he
    rw [fetchAux_succ, if_pos he]
  · intro fuel page counter acc he hm ho
    rw [fetchAux_succ, if_neg (by simp [he]), if_pos (by rw [hm, ho]; rfl), if_pos (by omega)]

/-- A raw item of the user merged before the target year (for the C9
witness). -/
def sampleOldRaw : RawPR :=
  { merged_at := some "2024-06-01T10:00:00Z"
    login := some "alice"
    title := "Old change"
    body := none
    html_url := "https://github.com/o/r/pull/7"
    labels := [] }

def sampleOldParse : String → NaiveDateTime := fun _ => ⟨2024, 6, 1, 10, 0, 0⟩

/-- Witness for C9 at a concrete run: a first page consisting only of the
user's pre-target-year PR satisfies the stop condition, and the fetch with
fuel 1 already terminates. -/
theorem fetch_pagination_termination_witness :
    (fetch_merged_prs sampleOldParse "alice" "o/r" 2025
      (fun _ => [sampleOldRaw]) 1).isSome = true :=
  (fetch_pagination_termination sampleOldParse "alice" "o/r" 2025
    (fun _ => [sampleOldRaw])).1 1 (by decide) (Or.inr (by decide)) 1 (by decide)

/-! ## Lemmas about the dispatcher (`summarize_prs_in_memory`) -/

theorem collectResults_error_of_mem {oracle : BatchOracle}
    {tasks : List (String × String × List PullRequest)} :
    (∃ t ∈ tasks, ∃ e, processBatch oracle t = Except.error e) →
    ∃ e, collectResults oracle tasks = Except.error e := by
  induction tasks with
  | nil => rintro ⟨t, ht, _⟩; exact absurd ht (by simp)
  | cons t ts ih =>
    rintro ⟨t', ht', e, he⟩
    rcases List.mem_cons.mp ht' with rfl | hmem
    · exact ⟨e, by simp [collectResults, he]⟩
    · cases hp : processBatch oracle t with
      | error e₀ => exact ⟨e₀, by simp [collectResults, hp]⟩
      | ok r =>
        rcases ih ⟨t', hmem, e, he⟩ with ⟨e₁, he₁⟩
        exact ⟨e₁, by simp [collectResults, hp, he₁]⟩

theorem collectResults_ok_of_all {oracle : BatchOracle}
    {tasks : List (String × String × List PullRequest)} :
    (∀ t ∈ tasks, ∃ r, processBatch oracle t = Except.ok r) →
    ∃ rs, collectResults oracle tasks = Except.ok rs := by
  induction tasks with
  | nil => intro _; exact ⟨[], rfl⟩
  | cons t ts ih =>
    intro h
    rcases h t (List.mem_cons_self _ _) with ⟨r, hr⟩
    rcases ih (fun t' ht' => h t' (List.mem_cons_of_mem _ ht')) with ⟨rs, hrs⟩
    exact ⟨r :: rs, by simp [collectResults, hr, hrs]⟩

theorem all_ok_of_collectResults_ok {oracle : BatchOracle}
    {tasks : List (String × String × List PullRequest)} {rs} :
    collectResults oracle tasks = Except.ok rs →
    ∀ t ∈ tasks, ∃ r, processBatch oracle t = Except.ok r := by
  induction tasks generalizing rs with
  | nil => intro _ t ht; exact absurd ht (by simp)
  | cons t ts ih =>
    intro h t' ht'
    cases hp : processBatch oracle t with
    | error e => simp [collectResults, hp] at h
    | ok r =>
      cases hc : collectResults oracle ts with
      | error e => simp [collectResults, hp, hc] at h
      | ok rs' =>
        rcases List.mem_cons.mp ht' with rfl | hmem
        · exact ⟨r, hp⟩
        · exact ih hc t' hmem

theorem dictAppend_ne_nil {α : Type} (d : List (String × List α)) (k : String) (v : α) :
    dictAppend d k v ≠ [] := by
  cases d with
  | nil => simp [dictAppend]
  | cons hd tl =>
    obtain ⟨k₀, vs₀⟩ := hd
    by_cases hk : k₀ = k
    · subst hk; rw [dictAppend_cons_of_eq]; simp
    · rw [dictAppend_cons_of_ne _ _ _ _ _ hk]; simp

theorem foldl_dictAppend_ne_nil {α : Type} (ps : List (String × α)) :
    ∀ d : List (String × List α), d ≠ [] →
      ps.foldl (fun g p => dictAppend g p.1 p.2) d ≠ [] := by
  induction ps with
  | nil => intro d h; exact h
  | cons p ps ih =>
    intro d _
    exact ih _ (dictAppend_ne_nil _ _ _)

theorem pairsFold_ne_nil {α : Type} (ps : List (String × α)) (h : ps ≠ []) :
    pairsFold ps ≠ [] := by
  cases ps with
  | nil => exact absurd rfl h
  | cons p ps =>
    unfold pairsFold
    rw [List.foldl_cons]
    exact foldl_dictAppend_ne_nil _ _ (dictAppend_ne_nil _ _ _)

theorem group_prs_by_repo_ne_nil {prs : List PullRequest} (h : prs ≠ []) :
    group_prs_by_repo prs ≠ [] := by
  rw [group_prs_by_repo_eq_pairsFold]
  exact pairsFold_ne_nil _ (by simpa using h)

theorem labelKeys_ne_nil (pr : PullRequest) : labelKeys pr ≠ [] := by
  unfold labelKeys
  by_cases h : pr.labels.isEmpty
  · simp [h]
  · rw [if_neg h]
    exact fun hh => h (List.isEmpty_iff.mpr hh)

theorem group_prs_by_label_only_ne_nil {prs : List PullRequest} (h : prs ≠ []) :
    group_prs_by_label_only prs ≠ [] := by
  rw [group_prs_by_label_only_eq_pairsFold]
  refine pairsFold_ne_nil _ ?_
  cases prs with
  | nil => exact absurd rfl h
  | cons pr prs =>
    unfold labelPairs
    rw [List.flatMap_cons]
    intro hh
    rcases List.append_eq_nil.mp hh with ⟨h1, _⟩
    rcases List.map_eq_nil_iff.mp h1 with h2
    exact labelKeys_ne_nil pr h2

theorem tasksOf_ne_nil {prs : List PullRequest} (h : prs ≠ []) : tasksOf prs ≠ [] := by
  unfold tasksOf
  cases hg : group_prs_by_repo prs with
  | nil => exact absurd hg (group_prs_by_repo_ne_nil h)
  | cons rp rps =>
    rw [List.flatMap_cons]
    intro hh
    rcases List.append_eq_nil.mp hh with ⟨h1, _⟩
    have hrp2 : rp.2 ≠ [] :=
      (batching_fanout_and_nonempty prs).2.1 rp (hg ▸ List.mem_cons_self _ _)
    exact group_prs_by_label_only_ne_nil hrp2 (List.map_eq_nil_iff.mp h1)

/-- C7: if any batch fails terminally, the whole `summarize_prs_in_memory`
call fails with that stage's error and produces no partial document;
conversely it returns a document exactly when every batch succeeded. -/
theorem summarize_prs_failure_propagation (oracle : BatchOracle) (prs : List PullRequest) :
    ((∃ t ∈ tasksOf prs, ∃ e, processBatch oracle t = Except.error e) →
      ∃ e, summarize_prs_in_memory oracle prs = Except.error e)
    ∧ (prs ≠ [] → (∀ t ∈ tasksOf prs, ∃ r, processBatch oracle t = Except.ok r) →
      ∃ doc, summarize_prs_in_memory oracle prs = Except.ok doc)
    ∧ (∀ doc, summarize_prs_in_memory oracle prs = Except.ok doc →
      ∀ t ∈ tasksOf prs, ∃ r, processBatch oracle t = Except.ok r) := by
  refine ⟨?_, ?_, ?_⟩
  · intro hex
    by_cases hmin : min (tasksOf prs).length 10 = 0
    · exact ⟨"max_workers must be greater than 0", by simp [summarize_prs_in_memory, hmin]⟩
    · rcases collectResults_error_of_mem hex with ⟨e, he⟩
      exact ⟨e, by simp [summarize_prs_in_memory, hmin, he]⟩
  · intro hne hall
    have hlen : (tasksOf prs).length ≠ 0 := by
      simpa [List.length_eq_zero] using tasksOf_ne_nil hne
    have hmin : ¬ min (tasksOf prs).length 10 = 0 := by omega
    rcases collectResults_ok_of_all hall with ⟨rs, hrs⟩
    exact ⟨renderSummaries (buildSummaries rs), by simp [summarize_prs_in_memory, hmin, hrs]⟩
  · intro doc hdoc t ht
    by_cases hmin : min (tasksOf prs).length 10 = 0
    · simp [summarize_prs_in_memory, hmin] at hdoc
    · cases hc : collectResults oracle (tasksOf prs) with
      | error e => simp [summarize_prs_in_memory, hmin, hc] at hdoc
      | ok rs => exact all_ok_of_collectResults_ok hc t ht

/-- Witness for C7 at a concrete input: a provider that always fails makes
the whole operation fail. -/
theorem summarize_prs_failure_propagation_witness :
    ∃ e, summarize_prs_in_memory (fun _ _ _ => Except.error "api down") [samplePR] =
      Except.error e :=
  (summarize_prs_failure_propagation (fun _ _ _ => Except.error "api down") [samplePR]).1
    ⟨("o/r", "backend", [samplePR]), by decide,
      failMessage "o/r/backend" 3 (some "api down"), rfl⟩

theorem fetchAll_all_empty {fetchOracle : String → Except String (List PullRequest)} :
    ∀ {repos : List String}, (∀ repo ∈ repos, fetchOracle repo = Except.ok []) →
      fetchAll fetchOracle repos = Except.ok [] := by
  intro repos
  induction repos with
  | nil => intro _; rfl
  | cons repo rest ih =>
    intro h
    have h1 := h repo (List.mem_cons_self _ _)
    have h2 := ih (fun r hr => h r (List.mem_cons_of_mem _ hr))
    simp [fetchAll, h1, h2]

/-- C8: when every requested repository yields zero matching PRs, the entry
point returns the distinct no-PRs-found document as a success, not an
error. -/
theorem generate_summary_no_prs_found (fetchOracle : String → Except String (List PullRequest))
    (summarizeOracle : BatchOracle) (repos : List String) (username : String) (year : Nat)
    (hne : repos ≠ []) (hempty : ∀ repo ∈ repos, fetchOracle repo = Except.ok []) :
    generate_summary fetchOracle summarizeOracle repos username year =
      ApiResponse.ok (noPrsDoc username repos year) := by
  unfold generate_summary
  rw [if_neg hne, fetchAll_all_empty hempty]
  simp

/-- Witness for C8 at a concrete request. -/
theorem generate_summary_no_prs_found_witness :
    generate_summary (fun _ => Except.ok []) (fun _ _ _ => Except.error "unused")
      ["o/r"] "alice" 2025 = ApiResponse.ok (noPrsDoc "alice" ["o/r"] 2025) :=
  generate_summary_no_prs_found (fun _ => Except.ok []) (fun _ _ _ => Except.error "unused")
    ["o/r"] "alice" 2025 (by decide) (fun repo _ => rfl)

/-- C10: on the empty PR list `summarize_prs_in_memory` raises the
`ThreadPoolExecutor` error for `max_workers = min(0, 10) = 0` instead of
returning an empty document; for any non-empty PR list the worker-pool size
is positive, so only the no-PRs case (which the API layer handles before
calling the pipeline) can trip it. -/
theorem summarize_prs_empty_input_raises (oracle : BatchOracle) :
    summarize_prs_in_memory oracle [] = Except.error "max_workers must be greater than 0"
    ∧ (∀ prs : List PullRequest, prs ≠ [] → ¬ min (tasksOf prs).length 10 = 0) := by
  constructor
  · rfl
  · intro prs hne
    have hlen : (tasksOf prs).length ≠ 0 := by
      simpa [List.length_eq_zero] using tasksOf_ne_nil hne
    omega

/-- Witness for C10 at concrete inputs. -/
theorem summarize_prs_empty_input_raises_witness :
    summarize_prs_in_memory (fun _ _ _ => Except.error "unused") [] =
      Except.error "max_workers must be greater than 0"
    ∧ ¬ min (tasksOf [samplePR]).length 10 = 0 :=
  ⟨(summarize_prs_empty_input_raises (fun _ _ _ => Except.error "unused")).1,
    (summarize_prs_empty_input_raises (fun _ _ _ => Except.error "unused")).2 [samplePR]
      (by decide)⟩

/-! ## Order facts about the sorting comparators -/

theorem charListLtb_nil_right : ∀ l : List Char, charListLtb l [] = false := by
  intro l
  cases l <;> rfl

theorem charListLtb_trichotomy :
    ∀ l₁ l₂ : List Char, charListLtb l₁ l₂ = true ∨ charListLtb l₂ l₁ = true ∨ l₁ = l₂ := by
  intro l₁
  induction l₁ with
  | nil =>
    intro l₂
    cases l₂ with
    | nil => exact Or.inr (Or.inr rfl)
    | cons c t => exact Or.inl rfl
  | cons c₁ t₁ ih =>
    intro l₂
    cases l₂ with
    | nil => exact Or.inr (Or.inl rfl)
    | cons c₂ t₂ =>
      rcases lt_trichotomy c₁ c₂ with h | h | h
      · exact Or.inl (by simp [charListLtb, h])
      · subst h
        rcases ih t₂ with h' | h' | h'
        · exact Or.inl (by simp [charListLtb, lt_irrefl, h'])
        · exact Or.inr (Or.inl (by simp [charListLtb, lt_irrefl, h']))
        · exact Or.inr (Or.inr (by rw [h']))
      · exact Or.inr (Or.inl (by simp [charListLtb, h]))

theorem charListLtb_asymm :
    ∀ {l₁ l₂ : List Char}, charListLtb l₁ l₂ = true → charListLtb l₂ l₁ = false := by
  intro l₁
  induction l₁ with
  | nil =>
    intro l₂ h
    cases l₂ with
    | nil => exact absurd h (by simp [charListLtb])
    | cons c t => rfl
  | cons c₁ t₁ ih =>
    intro l₂ h
    cases l₂ with
    | nil => exact absurd h (by simp [charListLtb_nil_right])
    | cons c₂ t₂ =>
      by_cases h1 : c₁ < c₂
      · simp [charListLtb, lt_asymm h1, h1]
      · by_cases h2 : c₂ < c₁
        · rw [show charListLtb (c₁ :: t₁) (c₂ :: t₂) = false by simp [charListLtb, h1, h2]] at h
          exact absurd h (by simp)
        · have h' : charListLtb t₁ t₂ = true := by simpa [charListLtb, h1, h2] using h
          simp [charListLtb, h1, h2, ih h']

theorem charListLtb_irrefl (l : List Char) : charListLtb l l = false := by
  cases hv : charListLtb l l with
  | false => rfl
  | true => exact absurd (charListLtb_asymm hv) (by simp [hv])

theorem charListLtb_eq_of_both_false {l₁ l₂ : List Char}
    (h1 : charListLtb l₁ l₂ = false) (h2 : charListLtb l₂ l₁ = false) : l₁ = l₂ := by
  rcases charListLtb_trichotomy l₁ l₂ with h | h | h
  · exact absurd h (by simp [h1])
  · exact absurd h (by simp [h2])
  · exact h

theorem charListLtb_trans :
    ∀ {l₁ l₂ l₃ : List Char}, charListLtb l₁ l₂ = true → charListLtb l₂ l₃ = true →
      charListLtb l₁ l₃ = true := by
  intro l₁
  induction l₁ with
  | nil =>
    intro l₂ l₃ h12 h23
    cases l₃ with
    | nil => exact absurd h23 (by simp [charListLtb_nil_right])
    | cons c t => rfl
  | cons c₁ t₁ ih =>
    intro l₂ l₃ h12 h23
    cases l₂ with
    | nil => exact absurd h12 (by simp [charListLtb_nil_right])
    | cons c₂ t₂ =>
      cases l₃ with
      | nil => exact absurd h23 (by simp [charListLtb_nil_right])
      | cons c₃ t₃ =>
        by_cases a1 : c₁ < c₂
        · by_cases a2 : c₂ < c₃
          · simp [charListLtb, lt_trans a1 a2]
          · by_cases b2 : c₃ < c₂
            · rw [show charListLtb (c₂ :: t₂) (c₃ :: t₃) = false by
                simp [charListLtb, a2, b2]] at h23
              exact absurd h23 (by simp)
            · have hc : c₂ = c₃ := le_antisymm (le_of_not_lt b2) (le_of_not_lt a2)
              subst hc
              simp [charListLtb, a1]
        · by_cases b1 : c₂ < c₁
          · rw [show charListLtb (c₁ :: t₁) (c₂ :: t₂) = false by
              simp [charListLtb, a1, b1]] at h12
            exact absurd h12 (by simp)
          · have hc : c₁ = c₂ := le_antisymm (le_of_not_lt b1) (le_of_not_lt a1)
            subst hc
            have h12' : charListLtb t₁ t₂ = true := by simpa [charListLtb, a1] using h12
            by_cases a2 : c₁ < c₃
            · simp [charListLtb, a2]
            · by_cases b2 : c₃ < c₁
              · rw [show charListLtb (c₁ :: t₂) (c₃ :: t₃) = false by
                  simp [charListLtb, a2, b2]] at h23
                exact absurd h23 (by simp)
              · have hc : c₁ = c₃ := le_antisymm (le_of_not_lt b2) (le_of_not_lt a2)
                subst hc
                have h23' : charListLtb t₂ t₃ = true := by simpa [charListLtb, a2] using h23
                simp [charListLtb, lt_irrefl, ih h12' h23']

theorem string_eq_of_data_eq {a b : String} (h : a.data = b.data) : a = b := by
  cases a
  cases b
  exact congrArg String.mk h

instance strLe_total : IsTotal String strLe := by
  refine ⟨fun a b => ?_⟩
  rcases charListLtb_trichotomy a.data b.data with h | h | h
  · exact Or.inl (charListLtb_asymm h)
  · exact Or.inr (charListLtb_asymm h)
  · exact Or.inl (show charListLtb b.data a.data = false by rw [h, charListLtb_irrefl])

instance strLe_trans : IsTrans String strLe := by
  refine ⟨fun a b c hab hbc => ?_⟩
  cases hv : charListLtb c.data a.data with
  | false => exact hv
  | true =>
    exfalso
    rcases charListLtb_trichotomy a.data b.data with h1 | h1 | h1
    · exact absurd (charListLtb_trans hv h1)
        (by simp [show charListLtb c.data b.data = false from hbc])
    · exact absurd h1 (by simp [show charListLtb b.data a.data = false from hab])
    · rw [h1] at hv
      exact absurd hv (by simp [show charListLtb c.data b.data = false from hbc])

instance strLe_antisymm : IsAntisymm String strLe := by
  refine ⟨fun a b hab hba => ?_⟩
  exact string_eq_of_data_eq (charListLtb_eq_of_both_false hba hab)

theorem strLtb_of_strLe_of_ne {a b : String} (h : strLe a b) (hne : a ≠ b) :
    strLtb a b = true := by
  rcases charListLtb_trichotomy a.data b.data with h1 | h1 | h1
  · exact h1
  · exact absurd h1 (by simp [show charListLtb b.data a.data = false from h])
  · exact absurd (string_eq_of_data_eq h1) hne

instance pairLe_total : IsTotal (String × String) pairLe := by
  refine ⟨fun a b => ?_⟩
  rcases charListLtb_trichotomy a.1.data b.1.data with h | h | h
  · exact Or.inl (Or.inl h)
  · exact Or.inr (Or.inl h)
  · have hk : a.1 = b.1 := string_eq_of_data_eq h
    rcases strLe_total.total a.2 b.2 with h2 | h2
    · exact Or.inl (Or.inr ⟨hk, h2⟩)
    · exact Or.inr (Or.inr ⟨hk.symm, h2⟩)

instance pairLe_trans : IsTrans (String × String) pairLe := by
  refine ⟨fun a b c hab hbc => ?_⟩
  rcases hab with hab | ⟨hab1, hab2⟩
  · rcases hbc with hbc | ⟨hbc1, hbc2⟩
    · exact Or.inl (charListLtb_trans hab hbc)
    · exact Or.inl (hbc1 ▸ hab)
  · rcases hbc with hbc | ⟨hbc1, hbc2⟩
    · exact Or.inl (hab1 ▸ hbc)
    · exact Or.inr ⟨hab1.trans hbc1, strLe_trans.trans _ _ _ hab2 hbc2⟩

instance pairLe_antisymm : IsAntisymm (String × String) pairLe := by
  refine ⟨fun a b hab hba => ?_⟩
  rcases hab with hab | ⟨hab1, hab2⟩
  · rcases hba with hba | ⟨hba1, hba2⟩
    · exact absurd hba
        (by simp [show strLtb b.1 a.1 = false from charListLtb_asymm hab])
    · rw [hba1] at hab
      exact absurd hab (by simp [show strLtb a.1 a.1 = false from charListLtb_irrefl _])
  · rcases hba with hba | ⟨hba1, hba2⟩
    · rw [hab1] at hba
      exact absurd hba (by simp [show strLtb b.1 b.1 = false from charListLtb_irrefl _])
    · have h2 : a.2 = b.2 := strLe_antisymm.antisymm _ _ hab2 hba2
      exact Prod.ext hab1 h2

theorem sortStrings_eq_of_mem_iff {l₁ l₂ : List String} (h₁ : l₁.Nodup) (h₂ : l₂.Nodup)
    (h : ∀ a, a ∈ l₁ ↔ a ∈ l₂) : sortStrings l₁ = sortStrings l₂ := by
  have hperm : l₁.Perm l₂ := (List.perm_ext_iff_of_nodup h₁ h₂).mpr h
  exact List.eq_of_perm_of_sorted
    ((List.perm_insertionSort strLe l₁).trans
      (hperm.trans (List.perm_insertionSort strLe l₂).symm))
    (List.sorted_insertionSort strLe l₁) (List.sorted_insertionSort strLe l₂)

theorem sortPairs_eq_of_mem_iff {l₁ l₂ : List (String × String)} (h₁ : l₁.Nodup)
    (h₂ : l₂.Nodup) (h : ∀ a, a ∈ l₁ ↔ a ∈ l₂) : sortPairs l₁ = sortPairs l₂ := by
  have hperm : l₁.Perm l₂ := (List.perm_ext_iff_of_nodup h₁ h₂).mpr h
  exact List.eq_of_perm_of_sorted
    ((List.perm_insertionSort pairLe l₁).trans
      (hperm.trans (List.perm_insertionSort pairLe l₂).symm))
    (List.sorted_insertionSort pairLe l₁) (List.sorted_insertionSort pairLe l₂)

/-! ## Lemmas about overwriting dictionaries and the collected summaries -/

theorem dictSet_cons_of_eq {β : Type} (k : String) (v₀ : β) (tl : List (String × β)) (v : β) :
    dictSet ((k, v₀) :: tl) k v = (k, v) :: tl := by
  simp [dictSet]

theorem dictSet_cons_of_ne {β : Type} (k₀ : String) (v₀ : β) (tl : List (String × β))
    (k : String) (v : β) (h : ¬ k₀ = k) :
    dictSet ((k₀, v₀) :: tl) k v = (k₀, v₀) :: dictSet tl k v := by
  simp [dictSet, h]

theorem dictFind_dictSet {β : Type} (d : List (String × β)) (k : String) (v : β) (q : String) :
    dictFind (dictSet d k v) q = if q = k then some v else dictFind d q := by
  induction d with
  | nil =>
    show dictFind [(k, v)] q = _
    rw [dictFind_cons]
    by_cases h : q = k
    · subst h
      simp
    · rw [if_neg (fun hh : k = q => h hh.symm), if_neg h]
  | cons hd tl ih =>
    obtain ⟨k₀, v₀⟩ := hd
    by_cases hk : k₀ = k
    · subst hk
      rw [dictSet_cons_of_eq, dictFind_cons, dictFind_cons]
      by_cases hq : k₀ = q
      · subst hq
        rw [if_pos rfl, if_pos rfl]
      · rw [if_neg hq, if_neg hq, if_neg (fun hh : q = k₀ => hq hh.symm)]
    · rw [dictSet_cons_of_ne _ _ _ _ _ hk, dictFind_cons, ih, dictFind_cons]
      by_cases hq : k₀ = q
      · subst hq
        rw [if_pos rfl, if_neg (fun hh : k₀ = k => hk hh), if_pos rfl]
      · rw [if_neg hq, if_neg hq]

theorem dictGetD_dictSet {β : Type} (d : List (String × β)) (k : String) (v : β) (q : String)
    (v₀ : β) :
    dictGetD (dictSet d k v) q v₀ = if q = k then v else dictGetD d q v₀ := by
  unfold dictGetD
  rw [dictFind_dictSet]
  by_cases h : q = k <;> simp [h]

theorem dictKeys_dictSet {β : Type} (d : List (String × β)) (k : String) (v : β) :
    dictKeys (dictSet d k v) =
      if k ∈ dictKeys d then dictKeys d else dictKeys d ++ [k] := by
  induction d with
  | nil => simp [dictSet, dictKeys]
  | cons hd tl ih =>
    obtain ⟨k₀, v₀⟩ := hd
    by_cases hk : k₀ = k
    · subst hk
      rw [dictSet_cons_of_eq, dictKeys_cons, dictKeys_cons,
        if_pos (by simp : k₀ ∈ k₀ :: dictKeys tl)]
    · rw [dictSet_cons_of_ne _ _ _ _ _ hk, dictKeys_cons, ih, dictKeys_cons]
      by_cases hmem : k ∈ dictKeys tl
      · rw [if_pos hmem, if_pos (by simp [hmem])]
      · rw [if_neg hmem,
          if_neg (by
            simp only [List.mem_cons, not_or]
            exact ⟨fun hh => hk hh.symm, hmem⟩),
          List.cons_append]

theorem mem_dictKeys_dictSet {β : Type} (d : List (String × β)) (k : String) (v : β)
    (q : String) :
    q ∈ dictKeys (dictSet d k v) ↔ q ∈ dictKeys d ∨ q = k := by
  rw [dictKeys_dictSet]
  by_cases h : k ∈ dictKeys d
  · simp only [if_pos h]
    constructor
    · exact Or.inl
    · rintro (hq | rfl)
      · exact hq
      · exact h
  · simp [if_neg h]

theorem nodup_dictKeys_dictSet {β : Type} (d : List (String × β)) (k : String) (v : β)
    (h : (dictKeys d).Nodup) : (dictKeys (dictSet d k v)).Nodup := by
  rw [dictKeys_dictSet]
  by_cases hm : k ∈ dictKeys d
  · rwa [if_pos hm]
  · rw [if_neg hm, List.nodup_append]
    refine ⟨h, List.nodup_singleton _, ?_⟩
    intro x hx hxk
    rw [List.mem_singleton] at hxk
    exact hm (hxk ▸ hx)

theorem dictFind_eq_some_iff_mem {β : Type} :
    ∀ {d : List (String × β)}, (dictKeys d).Nodup → ∀ {k : String} {v : β},
      (dictFind d k = some v ↔ (k, v) ∈ d) := by
  intro d
  induction d with
  | nil => intro _ k v; simp [dictFind]
  | cons hd tl ih =>
    obtain ⟨k₀, v₀⟩ := hd
    intro hnd k v
    rw [dictKeys_cons, List.nodup_cons] at hnd
    rw [dictFind_cons]
    by_cases hk : k₀ = k
    · subst hk
      rw [if_pos rfl]
      constructor
      · intro h
        rw [Option.some.injEq] at h
        subst h
        exact List.mem_cons_self _ _
      · intro hmem
        rcases List.mem_cons.mp hmem with heq | hmem
        · have hv : v = v₀ := congrArg Prod.snd heq
          rw [hv]
        · exact absurd (List.mem_map_of_mem (·.1) hmem) hnd.1
    · rw [if_neg hk, ih hnd.2]
      constructor
      · exact fun h => List.mem_cons_of_mem _ h
      · intro hmem
        rcases List.mem_cons.mp hmem with heq | hmem
        · exact absurd (congrArg Prod.fst heq).symm hk
        · exact hmem

/-- The batch identity `(repo, label)` of a collected result triple. -/
def keyPair (t : String × String × String) : String × String :=
  (t.1, t.2.1)

/-- `summaries[repo][label]` after the collection loop. -/
def getNested (s : List (String × List (String × String))) (r lab : String) : Option String :=
  dictFind (dictGetD s r []) lab

theorem getNested_step (d : List (String × List (String × String)))
    (t : String × String × String) (r lab : String) :
    getNested (dictSet d t.1 (dictSet (dictGetD d t.1 []) t.2.1 t.2.2)) r lab =
      if t.1 = r ∧ t.2.1 = lab then some t.2.2 else getNested d r lab := by
  unfold getNested
  rw [dictGetD_dictSet]
  by_cases h1 : r = t.1
  · rw [if_pos h1, dictFind_dictSet]
    by_cases h2 : lab = t.2.1
    · rw [if_pos h2, if_pos ⟨h1.symm, h2.symm⟩]
    · rw [if_neg h2, if_neg (fun hc => h2 hc.2.symm), h1]
  · rw [if_neg h1, if_neg (fun hc => h1 hc.1.symm)]

/-- The last assignment `summaries[r][lab] = v` a result list performs,
starting from `acc`. -/
def lastUpd (r lab : String) : List (String × String × String) → Option String → Option String
  | [], acc => acc
  | t :: ts, acc =>
    lastUpd r lab ts (if t.1 = r ∧ t.2.1 = lab then some t.2.2 else acc)

theorem getNested_foldl (r lab : String) :
    ∀ (rs : List (String × String × String)) (d : List (String × List (String × String))),
      getNested
        (rs.foldl (fun s t => dictSet s t.1 (dictSet (dictGetD s t.1 []) t.2.1 t.2.2)) d)
        r lab = lastUpd r lab rs (getNested d r lab) := by
  intro rs
  induction rs with
  | nil => intro d; rfl
  | cons t ts ih =>
    intro d
    rw [List.foldl_cons, ih, lastUpd, getNested_step]

theorem lastUpd_of_not_mem {r lab : String} :
    ∀ {rs : List (String × String × String)}, (r, lab) ∉ rs.map keyPair →
      ∀ acc, lastUpd r lab rs acc = acc := by
  intro rs
  induction rs with
  | nil => intro _ acc; rfl
  | cons t ts ih =>
    intro h acc
    rw [List.map_cons, List.mem_cons] at h
    push_neg at h
    rw [lastUpd, if_neg (fun hc => h.1 (by
      unfold keyPair
      rw [hc.1, hc.2]))]
    exact ih h.2 acc

theorem lastUpd_filter_head {r lab : String} :
    ∀ {rs : List (String × String × String)}, (rs.map keyPair).Nodup →
      lastUpd r lab rs none =
        ((rs.filter (fun t => t.1 = r ∧ t.2.1 = lab)).head?).map (·.2.2) := by
  intro rs
  induction rs with
  | nil => intro _; rfl
  | cons t ts ih =>
    intro hnd
    rw [List.map_cons, List.nodup_cons] at hnd
    by_cases hc : t.1 = r ∧ t.2.1 = lab
    · rw [List.filter_cons_of_pos (by simpa using hc), lastUpd, if_pos hc]
      have hkp : (r, lab) ∉ ts.map keyPair := by
        intro hmem
        exact hnd.1 (by
          unfold keyPair
          rw [hc.1, hc.2]
          exact hmem)
      rw [lastUpd_of_not_mem hkp]
      rfl
    · rw [List.filter_cons_of_neg (by simpa using hc), lastUpd, if_neg hc]
      exact ih hnd.2

theorem getNested_buildSummaries {rs : List (String × String × String)}
    (hnd : (rs.map keyPair).Nodup) (r lab : String) :
    getNested (buildSummaries rs) r lab =
      ((rs.filter (fun t => t.1 = r ∧ t.2.1 = lab)).head?).map (·.2.2) := by
  unfold buildSummaries
  rw [getNested_foldl, show getNested [] r lab = none from rfl, lastUpd_filter_head hnd]

theorem mem_dictKeys_buildSummaries_aux :
    ∀ (rs : List (String × String × String)) (d : List (String × List (String × String)))
      (r : String),
      r ∈ dictKeys
        (rs.foldl (fun s t => dictSet s t.1 (dictSet (dictGetD s t.1 []) t.2.1 t.2.2)) d) ↔
        r ∈ dictKeys d ∨ r ∈ rs.map (·.1) := by
  intro rs
  induction rs with
  | nil => intro d r; simp
  | cons t ts ih =>
    intro d r
    rw [List.foldl_cons, ih, mem_dictKeys_dictSet]
    simp only [List.map_cons, List.mem_cons]
    tauto

theorem mem_dictKeys_buildSummaries (rs : List (String × String × String)) (r : String) :
    r ∈ dictKeys (buildSummaries rs) ↔ r ∈ rs.map (·.1) := by
  unfold buildSummaries
  rw [mem_dictKeys_buildSummaries_aux]
  simp [dictKeys]

theorem nodup_dictKeys_buildSummaries_aux :
    ∀ (rs : List (String × String × String)) (d : List (String × List (String × String))),
      (dictKeys d).Nodup →
      (dictKeys
        (rs.foldl (fun s t => dictSet s t.1 (dictSet (dictGetD s t.1 []) t.2.1 t.2.2)) d)).Nodup := by
  intro rs
  induction rs with
  | nil => intro d h; exact h
  | cons t ts ih =>
    intro d h
    exact ih _ (nodup_dictKeys_dictSet _ _ _ h)

theorem nodup_dictKeys_buildSummaries (rs : List (String × String × String)) :
    (dictKeys (buildSummaries rs)).Nodup :=
  nodup_dictKeys_buildSummaries_aux rs [] (by simp [dictKeys])

theorem inner_dictGetD_step (d : List (String × List (String × String)))
    (t : String × String × String) (r : String) :
    dictGetD (dictSet d t.1 (dictSet (dictGetD d t.1 []) t.2.1 t.2.2)) r [] =
      if r = t.1 then dictSet (dictGetD d t.1 []) t.2.1 t.2.2 else dictGetD d r [] := by
  rw [dictGetD_dictSet]

theorem nodup_inner_buildSummaries_aux :
    ∀ (rs : List (String × String × String)) (d : List (String × List (String × String))),
      (∀ r, (dictKeys (dictGetD d r [])).Nodup) →
      ∀ r, (dictKeys (dictGetD
        (rs.foldl (fun s t => dictSet s t.1 (dictSet (dictGetD s t.1 []) t.2.1 t.2.2)) d)
        r [])).Nodup := by
  intro rs
  induction rs with
  | nil => intro d h; exact h
  | cons t ts ih =>
    intro d h
    refine ih _ (fun r => ?_)
    rw [inner_dictGetD_step]
    by_cases hr : r = t.1
    · rw [if_pos hr]
      exact nodup_dictKeys_dictSet _ _ _ (h t.1)
    · rw [if_neg hr]
      exact h r

theorem nodup_inner_buildSummaries (rs : List (String × String × String)) (r : String) :
    (dictKeys (dictGetD (buildSummaries rs) r [])).Nodup :=
  nodup_inner_buildSummaries_aux rs [] (fun _ => by simp [dictGetD, dictFind, dictKeys]) r

theorem mem_inner_buildSummaries_aux :
    ∀ (rs : List (String × String × String)) (d : List (String × List (String × String)))
      (r lab : String),
      lab ∈ dictKeys (dictGetD
        (rs.foldl (fun s t => dictSet s t.1 (dictSet (dictGetD s t.1 []) t.2.1 t.2.2)) d)
        r []) ↔
        lab ∈ dictKeys (dictGetD d r []) ∨ (r, lab) ∈ rs.map keyPair := by
  intro rs
  induction rs with
  | nil => intro d r lab; simp
  | cons t ts ih =>
    intro d r lab
    rw [List.foldl_cons, ih, inner_dictGetD_step]
    simp only [List.map_cons, List.mem_cons]
    by_cases hr : r = t.1
    · subst hr
      rw [if_pos rfl, mem_dictKeys_dictSet]
      constructor
      · rintro ((h | h) | h)
        · exact Or.inl h
        · exact Or.inr (Or.inl (show (t.1, lab) = (t.1, t.2.1) by rw [h]))
        · exact Or.inr (Or.inr h)
      · rintro (h | h | h)
        · exact Or.inl (Or.inl h)
        · exact Or.inl (Or.inr (congrArg Prod.snd h))
        · exact Or.inr h
    · rw [if_neg hr]
      constructor
      · rintro (h | h)
        · exact Or.inl h
        · exact Or.inr (Or.inr h)
      · rintro (h | h | h)
        · exact Or.inl h
        · exact absurd (congrArg Prod.fst h) hr
        · exact Or.inr h

theorem mem_inner_buildSummaries (rs : List (String × String × String)) (r lab : String) :
    lab ∈ dictKeys (dictGetD (buildSummaries rs) r []) ↔ (r, lab) ∈ rs.map keyPair := by
  unfold buildSummaries
  rw [mem_inner_buildSummaries_aux]
  simp [dictGetD, dictFind, dictKeys]

/-- The formatted summary stored for batch `(r, lab)`: the value of the
unique matching result triple (empty for an absent key). -/
def innerValD (rs : List (String × String × String)) (r lab : String) : String :=
  ((rs.filter (fun t => t.1 = r ∧ t.2.1 = lab)).head?).elim "" (·.2.2)

theorem getNested_eq_some_iff {rs : List (String × String × String)}
    (hnd : (rs.map keyPair).Nodup) (r lab v : String) :
    getNested (buildSummaries rs) r lab = some v ↔
      lab ∈ (rs.filter (fun t => t.1 = r)).map (·.2.1) ∧ v = innerValD rs r lab := by
  rw [getNested_buildSummaries hnd]
  unfold innerValD
  cases hh : (rs.filter (fun t => t.1 = r ∧ t.2.1 = lab)).head? with
  | none =>
    constructor
    · intro h
      exact absurd h (by simp)
    · rintro ⟨hlab, _⟩
      exfalso
      obtain ⟨t, ht, hkey⟩ := List.mem_map.mp hlab
      rw [List.mem_filter] at ht
      have hmem : t ∈ rs.filter (fun t => t.1 = r ∧ t.2.1 = lab) := by
        rw [List.mem_filter]
        exact ⟨ht.1, by
          simp only [decide_eq_true_eq] at ht ⊢
          exact ⟨ht.2, hkey⟩⟩
      rw [List.head?_eq_none_iff.mp hh] at hmem
      exact absurd hmem (by simp)
  | some t₀ =>
    have ht₀ : t₀ ∈ rs.filter (fun t => t.1 = r ∧ t.2.1 = lab) :=
      List.mem_of_mem_head? (Option.mem_def.mpr hh)
    rw [List.mem_filter] at ht₀
    have hc : t₀.1 = r ∧ t₀.2.1 = lab := by
      have := ht₀.2
      simpa using this
    constructor
    · intro h
      have hv : t₀.2.2 = v := by simpa using h
      refine ⟨?_, hv.symm⟩
      refine List.mem_map.mpr ⟨t₀, ?_, hc.2⟩
      rw [List.mem_filter]
      exact ⟨ht₀.1, by simpa using hc.1⟩
    · rintro ⟨_, hv⟩
      rw [show v = t₀.2.2 from hv]
      rfl

theorem mem_sortStrings {l : List String} {a : String} : a ∈ sortStrings l ↔ a ∈ l :=
  (List.perm_insertionSort strLe l).mem_iff

theorem mem_inner_items_iff {rs : List (String × String × String)}
    (hnd : (rs.map keyPair).Nodup) (r : String) (p : String × String) :
    p ∈ dictGetD (buildSummaries rs) r [] ↔
      p.1 ∈ (rs.filter (fun t => t.1 = r)).map (·.2.1) ∧ p.2 = innerValD rs r p.1 := by
  obtain ⟨lab, v⟩ := p
  rw [← dictFind_eq_some_iff_mem (nodup_inner_buildSummaries rs r)]
  exact getNested_eq_some_iff hnd r lab v

theorem sortPairs_inner_eq {rs : List (String × String × String)}
    (hnd : (rs.map keyPair).Nodup) (r : String) :
    sortPairs (dictGetD (buildSummaries rs) r []) =
      (sortStrings (((rs.filter (fun t => t.1 = r)).map (·.2.1)).dedup)).map
        (fun lab => (lab, innerValD rs r lab)) := by
  have hLnd : (dictGetD (buildSummaries rs) r []).Nodup :=
    (nodup_inner_buildSummaries rs r).of_map _
  have hlabsnd : (sortStrings (((rs.filter (fun t => t.1 = r)).map (·.2.1)).dedup)).Nodup :=
    ((List.perm_insertionSort strLe _).nodup_iff).mpr (List.nodup_dedup _)
  have hRnd :
      ((sortStrings (((rs.filter (fun t => t.1 = r)).map (·.2.1)).dedup)).map
        (fun lab => (lab, innerValD rs r lab))).Nodup :=
    hlabsnd.map (fun a b hab => congrArg Prod.fst hab)
  have hmem : ∀ p, p ∈ dictGetD (buildSummaries rs) r [] ↔
      p ∈ (sortStrings (((rs.filter (fun t => t.1 = r)).map (·.2.1)).dedup)).map
        (fun lab => (lab, innerValD rs r lab)) := by
    intro p
    rw [mem_inner_items_iff hnd r p]
    constructor
    · rintro ⟨h1, h2⟩
      refine List.mem_map.mpr ⟨p.1, ?_, ?_⟩
      · rw [mem_sortStrings, List.mem_dedup]
        exact h1
      · exact Prod.ext rfl h2.symm
    · intro hm
      obtain ⟨lab, hlab, heq⟩ := List.mem_map.mp hm
      rw [mem_sortStrings, List.mem_dedup] at hlab
      have h1 : p.1 = lab := (congrArg Prod.fst heq).symm
      have h2 : p.2 = innerValD rs r lab := (congrArg Prod.snd heq).symm
      exact ⟨h1 ▸ hlab, by rw [h2, h1]⟩
  have hperm : (dictGetD (buildSummaries rs) r []).Perm
      ((sortStrings (((rs.filter (fun t => t.1 = r)).map (·.2.1)).dedup)).map
        (fun lab => (lab, innerValD rs r lab))) :=
    (List.perm_ext_iff_of_nodup hLnd hRnd).mpr hmem
  refine List.eq_of_perm_of_sorted
    ((List.perm_insertionSort pairLe _).trans hperm)
    (List.sorted_insertionSort pairLe _) ?_
  have hsort : (sortStrings (((rs.filter (fun t => t.1 = r)).map (·.2.1)).dedup)).Sorted strLe :=
    List.sorted_insertionSort strLe _
  have hpairw :
      (sortStrings (((rs.filter (fun t => t.1 = r)).map (·.2.1)).dedup)).Pairwise
        (fun a b => strLe a b ∧ a ≠ b) :=
    hsort.and hlabsnd
  exact List.pairwise_map.mpr
    (hpairw.imp (fun hab => Or.inl (strLtb_of_strLe_of_ne hab.1 hab.2)))

/-- The assembled document, characterized from the result list directly:
repos in sorted order, labels in sorted order within each repo, each batch
section holding the formatted summary of the unique result with that
`(repo, label)` key. -/
def canonicalRender (rs : List (String × String × String)) : String :=
  String.intercalate "\n"
    ((sortStrings ((rs.map (·.1)).dedup)).flatMap (fun repo =>
      ["## " ++ repo, ""] ++
        (sortStrings (((rs.filter (fun t => t.1 = repo)).map (·.2.1)).dedup)).flatMap
          (fun lab => ["### " ++ lab, "", innerValD rs repo lab, ""])))

theorem renderSummaries_buildSummaries_canonical (rs : List (String × String × String))
    (hnd : (rs.map keyPair).Nodup) :
    renderSummaries (buildSummaries rs) = canonicalRender rs := by
  unfold renderSummaries canonicalRender
  rw [sortStrings_eq_of_mem_iff (nodup_dictKeys_buildSummaries rs) (List.nodup_dedup _)
    (fun r => by rw [mem_dictKeys_buildSummaries, List.mem_dedup])]
  have hfun :
      (fun repo => ["## " ++ repo, ""] ++
        (sortPairs (dictGetD (buildSummaries rs) repo [])).flatMap
          (fun p => ["### " ++ p.1, "", p.2, ""])) =
      (fun repo => ["## " ++ repo, ""] ++
        (sortStrings (((rs.filter (fun t => t.1 = repo)).map (·.2.1)).dedup)).flatMap
          (fun lab => ["### " ++ lab, "", innerValD rs repo lab, ""])) := by
    funext repo
    rw [sortPairs_inner_eq hnd repo, List.flatMap_map]
  rw [hfun]

theorem length_filter_key_le_one {rs : List (String × String × String)}
    (hnd : (rs.map keyPair).Nodup) (r lab : String) :
    (rs.filter (fun t => t.1 = r ∧ t.2.1 = lab)).length ≤ 1 := by
  induction rs with
  | nil => simp
  | cons t ts ih =>
    rw [List.map_cons, List.nodup_cons] at hnd
    by_cases hc : t.1 = r ∧ t.2.1 = lab
    · rw [List.filter_cons_of_pos (by simpa using hc)]
      have hnil : ts.filter (fun t => t.1 = r ∧ t.2.1 = lab) = [] := by
        rw [List.filter_eq_nil_iff]
        intro u hu hup
        have hup' : u.1 = r ∧ u.2.1 = lab := by simpa using hup
        refine hnd.1 ?_
        have : keyPair u = keyPair t := by
          unfold keyPair
          rw [hup'.1, hup'.2, hc.1, hc.2]
        exact this ▸ List.mem_map_of_mem keyPair hu
      rw [hnil]
      simp
    · rw [List.filter_cons_of_neg (by simpa using hc)]
      exact ih hnd.2

theorem perm_eq_of_length_le_one {α : Type} {l l' : List α} (h : l.Perm l')
    (hlen : l.length ≤ 1) : l = l' := by
  cases l with
  | nil => exact (h.symm.eq_nil).symm
  | cons a t =>
    cases t with
    | nil =>
      have hlen' := h.length_eq
      cases l' with
      | nil => simp at hlen'
      | cons b t' =>
        cases t' with
        | nil =>
          have hab : a ∈ [b] := h.subset (List.mem_cons_self _ _)
          rw [List.mem_singleton] at hab
          rw [hab]
        | cons c t'' => simp at hlen'
    | cons b t' => simp at hlen

/-- C6: the final assembled markdown document is byte-identical under any
permutation of the order in which batch results are collected, as long as
the batch keys are distinct (as they are, one result per batch). -/
theorem assembled_document_order_invariant (l₁ l₂ : List (String × String × String))
    (hperm : l₁.Perm l₂) (hnd : (l₁.map keyPair).Nodup) :
    renderSummaries (buildSummaries l₁) = renderSummaries (buildSummaries l₂) := by
  have hnd₂ : (l₂.map keyPair).Nodup := ((hperm.map keyPair).nodup_iff).mp hnd
  rw [renderSummaries_buildSummaries_canonical l₁ hnd,
    renderSummaries_buildSummaries_canonical l₂ hnd₂]
  unfold canonicalRender
  have houter : sortStrings ((l₁.map (·.1)).dedup) = sortStrings ((l₂.map (·.1)).dedup) :=
    sortStrings_eq_of_mem_iff (List.nodup_dedup _) (List.nodup_dedup _)
      (fun r => by
        rw [List.mem_dedup, List.mem_dedup]
        exact (hperm.map (·.1)).mem_iff)
  rw [houter]
  have hfilter : ∀ repo lab,
      l₁.filter (fun t => t.1 = repo ∧ t.2.1 = lab) =
        l₂.filter (fun t => t.1 = repo ∧ t.2.1 = lab) := by
    intro repo lab
    exact perm_eq_of_length_le_one (hperm.filter _) (length_filter_key_le_one hnd repo lab)
  have hval : ∀ repo lab, innerValD l₁ repo lab = innerValD l₂ repo lab := by
    intro repo lab
    unfold innerValD
    rw [hfilter repo lab]
  have hlabs : ∀ repo,
      sortStrings (((l₁.filter (fun t => t.1 = repo)).map (·.2.1)).dedup) =
        sortStrings (((l₂.filter (fun t => t.1 = repo)).map (·.2.1)).dedup) := by
    intro repo
    exact sortStrings_eq_of_mem_iff (List.nodup_dedup _) (List.nodup_dedup _)
      (fun lab => by
        rw [List.mem_dedup, List.mem_dedup]
        exact ((hperm.filter _).map _).mem_iff)
  have hfun :
      (fun repo => ["## " ++ repo, ""] ++
        (sortStrings (((l₁.filter (fun t => t.1 = repo)).map (·.2.1)).dedup)).flatMap
          (fun lab => ["### " ++ lab, "", innerValD l₁ repo lab, ""])) =
      (fun repo => ["## " ++ repo, ""] ++
        (sortStrings (((l₂.filter (fun t => t.1 = repo)).map (·.2.1)).dedup)).flatMap
          (fun lab => ["### " ++ lab, "", innerValD l₂ repo lab, ""])) := by
    funext repo
    rw [hlabs repo]
    have hfun2 :
        (fun lab => ["### " ++ lab, "", innerValD l₁ repo lab, ""]) =
        (fun lab => ["### " ++ lab, "", innerValD l₂ repo lab, ""]) :=
      funext (fun lab => by rw [hval repo lab])
    rw [hfun2]
  rw [hfun]

/-- Witness for C6 at a concrete pair of collection orders. -/
theorem assembled_document_order_invariant_witness :
    renderSummaries (buildSummaries [("r", "a", "SA"), ("r", "b", "SB")]) =
      renderSummaries (buildSummaries [("r", "b", "SB"), ("r", "a", "SA")]) :=
  assembled_document_order_invariant _ _ (List.Perm.swap _ _ _) (by decide)

/-! ## The result assembler against the spec's description (claim C5) -/

/-- The collection-and-assembly phase of `summarize_prs_in_memory` applied to
each batch's parsed `SummaryResponse`: each batch is formatted by
`format_summary_with_citations`, stored under `summaries[repo][label]`, and
the final document is rendered by repo and label. -/
def codeAssemble (results : List (String × String × SummaryResponse)) : String :=
  renderSummaries
    (buildSummaries
      (results.map (fun t => (t.1, t.2.1, format_summary_with_citations t.2.2))))

/-- Modelled from the spec: the Result Assembler it describes discards the
original batch key, re-groups all returned bullets of a repository by each
bullet's self-reported `career_area` in alphabetical order directly within
the repository section (repositories in alphabetical order), with bullets
inside an area in first-seen order. -/
def specAssembleByCareerArea (results : List (String × String × SummaryResponse)) : String :=
  String.intercalate "\n"
    ((sortStrings ((results.map (·.1)).dedup)).flatMap (fun repo =>
      ["## " ++ repo, ""] ++
        (sortStrings
          ((((results.filter (fun t => t.1 = repo)).flatMap (fun t => t.2.2.bullets)).map
            (·.career_area)).dedup)).flatMap (fun area =>
          areaLines area
            (((results.filter (fun t => t.1 = repo)).flatMap (fun t => t.2.2.bullets)).filter
              (fun b => b.career_area = area)))))

def cexRespA : SummaryResponse :=
  ⟨[{ title := "Did one thing"
      work_done := "w1"
      significance := "s1"
      career_area := "Area X"
      pr_citations := [{ title := "p1", url := "u1" }] }]⟩

def cexRespB : SummaryResponse :=
  ⟨[{ title := "Did two things"
      work_done := "w2"
      significance := "s2"
      career_area := "Area X"
      pr_citations := [{ title := "p2", url := "u2" }] }]⟩

def cexResults : List (String × String × SummaryResponse) :=
  [("r", "a", cexRespA), ("r", "b", cexRespB)]

/-- Counterexample to C5 as stated: with two batches `a` and `b` of one repo
whose bullets share the career area `"Area X"`, the code's assembled
document keeps the two `### a` / `### b` batch sections with the career-area
grouping inside each, instead of discarding the batch key and merging the
bullets into one career-area section directly under the repository. -/
theorem assembler_career_area_counterexample :
    codeAssemble cexResults ≠ specAssembleByCareerArea cexResults := by
  decide

theorem nodup_dictKeys_foldl_dictAppend {α : Type} (ps : List (String × α)) :
    ∀ d : List (String × List α), (dictKeys d).Nodup →
      (dictKeys (ps.foldl (fun g p => dictAppend g p.1 p.2) d)).Nodup := by
  induction ps with
  | nil => intro d h; exact h
  | cons p ps ih =>
    intro d h
    exact ih _ (nodup_dictKeys_dictAppend _ _ _ h)

theorem mem_dictKeys_pairsFold {α : Type} (ps : List (String × α)) (k : String) :
    k ∈ dictKeys (pairsFold ps) ↔ k ∈ ps.map (·.1) := by
  unfold pairsFold
  rw [mem_dictKeys_foldl_dictAppend]
  simp [dictKeys]

theorem groupBulletsByArea_eq_pairsFold (bullets : List SummaryBullet) :
    groupBulletsByArea bullets = pairsFold (bullets.map (fun b => (b.career_area, b))) := by
  unfold groupBulletsByArea pairsFold
  rw [List.foldl_map]

theorem dictGetD_groupBulletsByArea (bullets : List SummaryBullet) (area : String) :
    dictGetD (groupBulletsByArea bullets) area [] =
      bullets.filter (fun b => b.career_area = area) := by
  rw [groupBulletsByArea_eq_pairsFold, dictGetD_pairsFold, List.filter_map, List.map_map]
  rw [show ((fun p : String × SummaryBullet => p.2) ∘ fun b => (b.career_area, b)) =
    id from rfl, List.map_id]
  rfl

theorem format_summary_filter_characterization (s : SummaryResponse) :
    format_summary_with_citations s =
      String.intercalate "\n"
        ((sortStrings ((s.bullets.map (·.career_area)).dedup)).flatMap (fun area =>
          areaLines area (s.bullets.filter (fun b => b.career_area = area)))) := by
  unfold format_summary_with_citations
  have hkeys : sortStrings (dictKeys (groupBulletsByArea s.bullets)) =
      sortStrings ((s.bullets.map (·.career_area)).dedup) := by
    refine sortStrings_eq_of_mem_iff ?_ (List.nodup_dedup _) ?_
    · rw [groupBulletsByArea_eq_pairsFold]
      exact nodup_dictKeys_foldl_dictAppend _ [] (by simp [dictKeys])
    · intro area
      rw [groupBulletsByArea_eq_pairsFold, mem_dictKeys_pairsFold, List.map_map,
        List.mem_dedup]
      rfl
  rw [hkeys]
  have hfun : (fun area => areaLines area (dictGetD (groupBulletsByArea s.bullets) area [])) =
      (fun area => areaLines area (s.bullets.filter (fun b => b.career_area = area))) :=
    funext (fun area => by rw [dictGetD_groupBulletsByArea])
  rw [hfun]

/-- C5 (amended): the assembler retains the batch key.  The final document
has repositories in alphabetical order, batch labels in alphabetical order
within each repository, and each batch section holds that batch's formatted
summary, in which bullets are grouped by their self-reported `career_area`
in alphabetical order with bullets inside an area in first-seen order. -/
theorem assembler_retains_batch_keys (results : List (String × String × SummaryResponse))
    (hnd : (results.map (fun t => (t.1, t.2.1))).Nodup) :
    codeAssemble results =
      String.intercalate "\n"
        ((sortStrings ((results.map (·.1)).dedup)).flatMap (fun repo =>
          ["## " ++ repo, ""] ++
            (sortStrings (((results.filter (fun t => t.1 = repo)).map (·.2.1)).dedup)).flatMap
              (fun lab =>
                ["### " ++ lab, "",
                  ((results.filter (fun t => t.1 = repo ∧ t.2.1 = lab)).head?).elim ""
                    (fun t => format_summary_with_citations t.2.2), ""])))
    ∧ (∀ s : SummaryResponse,
        format_summary_with_citations s =
          String.intercalate "\n"
            ((sortStrings ((s.bullets.map (·.career_area)).dedup)).flatMap (fun area =>
              areaLines area (s.bullets.filter (fun b => b.career_area = area))))) := by
  constructor
  · have hnd' : ((results.map
        (fun t => (t.1, t.2.1, format_summary_with_citations t.2.2))).map keyPair).Nodup := by
      rw [List.map_map]
      exact hnd
    rw [show codeAssemble results = renderSummaries (buildSummaries (results.map
      (fun t => (t.1, t.2.1, format_summary_with_citations t.2.2)))) from rfl,
      renderSummaries_buildSummaries_canonical _ hnd']
    unfold canonicalRender
    rw [List.map_map,
      show ((fun x : String × String × String => x.1) ∘
          fun t : String × String × SummaryResponse =>
          (t.1, t.2.1, format_summary_with_citations t.2.2)) =
        (fun t : String × String × SummaryResponse => t.1) from rfl]
    have hlabels : ∀ repo,
        (((results.map (fun t => (t.1, t.2.1, format_summary_with_citations t.2.2))).filter
          (fun t => t.1 = repo)).map (·.2.1)) =
          ((results.filter (fun t => t.1 = repo)).map (·.2.1)) := by
      intro repo
      rw [List.filter_map, List.map_map]
      rfl
    have hvals : ∀ repo lab,
        innerValD (results.map (fun t => (t.1, t.2.1, format_summary_with_citations t.2.2)))
          repo lab =
          ((results.filter (fun t => t.1 = repo ∧ t.2.1 = lab)).head?).elim ""
            (fun t => format_summary_with_citations t.2.2) := by
      intro repo lab
      unfold innerValD
      rw [List.filter_map,
        show List.filter ((fun t : String × String × String =>
            decide (t.1 = repo ∧ t.2.1 = lab)) ∘ fun t : String × String × SummaryResponse =>
            (t.1, t.2.1, format_summary_with_citations t.2.2)) results =
          results.filter (fun t => t.1 = repo ∧ t.2.1 = lab) from rfl,
        List.head?_map]
      cases (results.filter (fun t => t.1 = repo ∧ t.2.1 = lab)).head? <;> rfl
    have hfun :
        (fun repo => ["## " ++ repo, ""] ++
          (sortStrings ((((results.map
            (fun t => (t.1, t.2.1, format_summary_with_citations t.2.2))).filter
              (fun t => t.1 = repo)).map (·.2.1)).dedup)).flatMap
            (fun lab => ["### " ++ lab, "",
              innerValD (results.map
                (fun t => (t.1, t.2.1, format_summary_with_citations t.2.2))) repo lab, ""])) =
        (fun repo => ["## " ++ repo, ""] ++
          (sortStrings (((results.filter (fun t => t.1 = repo)).map (·.2.1)).dedup)).flatMap
            (fun lab => ["### " ++ lab, "",
              ((results.filter (fun t => t.1 = repo ∧ t.2.1 = lab)).head?).elim ""
                (fun t => format_summary_with_citations t.2.2), ""])) := by
      funext repo
      rw [hlabels repo]
      have hfun2 :
          (fun lab => ["### " ++ lab, "",
            innerValD (results.map
              (fun t => (t.1, t.2.1, format_summary_with_citations t.2.2))) repo lab, ""]) =
          (fun lab => ["### " ++ lab, "",
            ((results.filter (fun t => t.1 = repo ∧ t.2.1 = lab)).head?).elim ""
              (fun t => format_summary_with_citations t.2.2), ""]) :=
        funext (fun lab => by rw [hvals repo lab])
      rw [hfun2]
    rw [hfun]
  · exact format_summary_filter_characterization

/-- Witness for the amended C5 at a concrete input: the two-batch example
assembles to the canonical batch-key-retaining form. -/
theorem assembler_retains_batch_keys_witness :
    codeAssemble cexResults =
      String.intercalate "\n"
        ((sortStrings ((cexResults.map (·.1)).dedup)).flatMap (fun repo =>
          ["## " ++ repo, ""] ++
            (sortStrings (((cexResults.filter (fun t => t.1 = repo)).map (·.2.1)).dedup)).flatMap
              (fun lab =>
                ["### " ++ lab, "",
                  ((cexResults.filter (fun t => t.1 = repo ∧ t.2.1 = lab)).head?).elim ""
                    (fun t => format_summary_with_citations t.2.2), ""]))) :=
  (assembler_retains_batch_keys cexResults (by decide)).1

end SelfReview
